import Mathlib

/-!
Shallow embedding of the core of `synthetic_data_pkg` (a synthetic
electricity-market time-series generator) and proofs about it.

Modelling conventions:
* Python floats are modelled by `ℚ` (exact arithmetic idealisation of IEEE
  doubles; every arithmetic operation in the verified code paths is a field
  operation, so `ℚ` is closed under them).
* `np.inf` appears only in the marginal-cost bracket of thermal plants and in
  absent clamp bounds; both are modelled by `Option ℚ` with `none` standing
  for the infinite end.
* Python exceptions (`KeyError`, `ValueError`, `AssertionError`,
  `RuntimeError`) are modelled by `Option`-valued functions returning `none`.
* `numpy` random draws are modelled by an explicit stream of rationals
  (`RNG`): each call to the generator consumes one stream element.  A normal
  draw `rng.normal(mu, sigma)` is `mu + sigma * z` with `z` the raw stream
  element, matching numpy's location-scale definition (in particular
  `sigma = 0` gives `mu` exactly); draws from the other families are taken
  to be the raw stream element itself, which is sufficient because the
  verified properties never depend on the shape of those distributions.
* `scipy.optimize.brentq` is modelled by an abstract root finder of type
  `RootFinder`; theorems that rely on a successful solve hypothesise
  `RootFinder.Sound`, i.e. a returned root lies in the bracket and is exact.
* `math.cos`/`np.cos` is modelled by an abstract function `cosPi : ℚ → ℚ`
  (`cosPi x` stands for `cos (π * x)`); no verified property depends on its
  values.
-/

namespace SDG

/-! ## utils.py -/

/-- `np.clip(x, lo, hi)` = `min(hi, max(x, lo))` (note: if `lo > hi` the
result is `hi`). -/
def npClip (x lo hi : ℚ) : ℚ := min (max x lo) hi

/-- A `bounds` dict `{low?, high?}`; a missing key means the corresponding
infinity (`bounds.get("low", -np.inf)` / `bounds.get("high", np.inf)`). -/
structure Bounds where
  low : Option ℚ
  high : Option ℚ
deriving DecidableEq

/-- `utils._clamp(x, bounds)`: clip `x` to the bounds when present. -/
def clamp (x : ℚ) (b : Option Bounds) : ℚ :=
  match b with
  | none => x
  | some b =>
    let y := match b.low with | none => x | some lo => max x lo
    match b.high with | none => y | some hi => min y hi

/-- consecutive differences minus one: models
`np.diff(np.r_[[prev], points]) - 1` threaded from a previous boundary. -/
def diffsMinusOne : ℤ → List ℤ → List ℤ
  | _, [] => []
  | prev, c :: cs => (c - prev - 1) :: diffsMinusOne c cs

/-- `utils.random_partition(days, N, min_segment, rng)`.  The rng draw
`np.sort(rng.choice(np.arange(remaining + N - 1), size=N-1, replace=False))`
is supplied as the already-sorted distinct cut list `cuts`; `none` models the
`assert N * min_segment <= days` failing. -/
def random_partition (days N min_segment : ℕ) (cuts : List ℕ) : Option (List ℤ) :=
  if N * min_segment ≤ days then
    let remaining : ℕ := days - N * min_segment
    if remaining = 0 then some (List.replicate N (min_segment : ℤ))
    else
      let parts := diffsMinusOne (-1) ((cuts.map (fun c : ℕ => (c : ℤ))) ++ [(remaining : ℤ) + N - 1])
      some (parts.map (fun p => (min_segment : ℤ) + p))
  else none

/-- `utils.linear_ramp(price, p_low, p_high, cap)`; `none` bracket ends model
`np.isinf` (the code returns 0 whenever either end is infinite). -/
def linear_ramp (price : ℚ) (p_low p_high : Option ℚ) (cap : ℚ) : ℚ :=
  match p_low, p_high with
  | some pl, some ph =>
    if cap ≤ 0 then 0
    else if price ≤ pl then 0
    else if ph ≤ price then cap
    else cap * max 0 (min 1 ((price - pl) / (ph - pl)))
  | _, _ => 0

/-! ## dists.py -/

/-- A distribution spec dict `{"kind": ..., params..., "bounds": ...}`.
Every parameter key is optional, mirroring `spec.get(k, default)` /
`spec[k]` (`KeyError` for a required missing key is modelled by `none`
results).  `stepC` models the `"_step"` entry that
`stateful_step`'s linear branch reads; its write-back mutation is not
observable by any claim verified here (inside `RegimeSchedule.value_at`
the linear kind never reaches `stateful_step`, and the blended dict `p`
passed to `stateful_step` is a discarded copy). -/
structure DistSpec where
  kind : String
  v : Option ℚ := none
  min : Option ℚ := none
  max : Option ℚ := none
  mu : Option ℚ := none
  sigma : Option ℚ := none
  phi : Option ℚ := none
  drift : Option ℚ := none
  start : Option ℚ := none
  slope : Option ℚ := none
  alpha : Option ℚ := none
  beta : Option ℚ := none
  low : Option ℚ := none
  high : Option ℚ := none
  bounds : Option Bounds := none
  name : Option String := none
  transform : Option String := none
  stepC : Option ℕ := none
deriving DecidableEq

/-- Python `str.lower()` (the kind strings are ASCII). -/
def strLower (s : String) : String := ⟨s.data.map Char.toLower⟩

/-- The numpy generator, modelled as a stream of raw rational draws plus a
cursor; every sampling call consumes one stream element. -/
structure RNG where
  stream : ℕ → ℚ
  pos : ℕ

/-- Consume one raw stream element. -/
def RNG.next (r : RNG) : ℚ × RNG := (r.stream r.pos, ⟨r.stream, r.pos + 1⟩)

/-- `rng.normal(mu, sigma)` = `mu + sigma * z`, `z` a standard-normal draw
(numpy's location-scale form; in particular `sigma = 0` returns `mu`). -/
def RNG.normalDraw (r : RNG) (mu sigma : ℚ) : ℚ × RNG :=
  let p := r.next
  (mu + sigma * p.1, p.2)

/-- The `truncnormal` rejection loop of `dists.iid_sample`: up to `fuel`
(= 1000) normal draws, returning the first draw inside `[lo, hi]`, else the
hard clip of the last draw. -/
def truncnormalDraw (mu sigma lo hi : ℚ) : ℕ → RNG → ℚ × RNG
  | 0, r => (npClip (r.normalDraw mu sigma).1 lo hi, (r.normalDraw mu sigma).2)
  | n + 1, r =>
    let p := r.normalDraw mu sigma
    if lo ≤ p.1 ∧ p.1 ≤ hi then p
    else
      match n with
      | 0 => (npClip p.1 lo hi, p.2)
      | m + 1 => truncnormalDraw mu sigma lo hi (m + 1) p.2

/-- `dists.iid_sample(rng, spec)`; `none` models `KeyError` on a required
parameter or the `ValueError` for an unsupported kind. -/
def iid_sample (r : RNG) (spec : DistSpec) : Option (ℚ × RNG) :=
  let k := strLower spec.kind
  let b := spec.bounds
  if k = "const" then
    match spec.v with
    | none => none
    | some v => some (clamp v b, r)
  else if k = "uniform" then
    let lo := spec.min.getD 0
    let hi := spec.max.getD 1
    let p := r.next
    some (clamp (lo + (hi - lo) * p.1) b, p.2)
  else if k = "normal" then
    match spec.mu, spec.sigma with
    | some mu, some sigma =>
      let p := r.normalDraw mu sigma
      some (clamp p.1 b, p.2)
    | _, _ => none
  else if k = "lognormal" then
    match spec.mu, spec.sigma with
    | some _, some _ =>
      let p := r.next
      some (clamp p.1 b, p.2)
    | _, _ => none
  else if k = "beta" then
    match spec.alpha, spec.beta with
    | some _, some _ =>
      let p := r.next
      let val := spec.low.getD 0 + p.1 * (spec.high.getD 1 - spec.low.getD 0)
      some (clamp val b, p.2)
    | _, _ => none
  else if k = "truncnormal" then
    match spec.low, spec.high, spec.mu, spec.sigma with
    | some lo, some hi, some mu, some sigma =>
      let p := truncnormalDraw mu sigma lo hi 1000 r
      some (clamp p.1 b, p.2)
    | _, _, _, _ => none
  else none

/-- `dists.stateful_step(rng, prev, spec)` for the stateful kinds
`ar1`, `rw`, `linear`. -/
def stateful_step (r : RNG) (prev : Option ℚ) (spec : DistSpec) : Option (ℚ × RNG) :=
  let k := strLower spec.kind
  let b := spec.bounds
  if k = "ar1" then
    match spec.mu with
    | none => none
    | some mu =>
      let sigma := spec.sigma.getD 1
      let phi := spec.phi.getD (9 / 10)
      let xprev := prev.getD mu
      let p := r.normalDraw 0 sigma
      some (clamp (mu + phi * (xprev - mu) + p.1) b, p.2)
  else if k = "rw" then
    let drift := spec.drift.getD 0
    let sigma := spec.sigma.getD 1
    let start := spec.start.getD 0
    let xprev := prev.getD start
    let p := r.normalDraw 0 sigma
    some (clamp (xprev + drift + p.1) b, p.2)
  else if k = "linear" then
    let start := spec.start.getD 0
    let slope := spec.slope.getD 0
    match prev with
    | none => some (clamp start b, r)
    | some _ =>
      let step : ℕ := spec.stepC.getD 0 + 1
      some (clamp (start + slope * (step : ℚ)) b, r)
  else none

/-- `dists.empirical_at(series_map, ts, spec)`.  A pandas series (after
`asfreq("h", method="pad")` and the padded `reindex`) is modelled as a total
hourly lookup `ℤ → ℚ`; `none` models the `KeyError` for a missing series /
name and the `ValueError` for an unknown transform. -/
def empirical_at (series_map : String → Option (ℤ → ℚ)) (ts : ℤ)
    (spec : DistSpec) : Option ℚ :=
  match spec.name with
  | none => none
  | some nm =>
    match series_map nm with
    | none => none
    | some s =>
      let tr := spec.transform.getD "level"
      let val := s ts
      if tr = "level" then some (clamp val spec.bounds)
      else if tr = "pct_change" then
        let prev := s (ts - 1)
        some (clamp (if prev ≠ 0 then val / prev - 1 else 0) spec.bounds)
      else if tr = "diff" then
        let prev := s (ts - 1)
        some (clamp (val - prev) spec.bounds)
      else none

/-! ## demand.py -/

/-- The calendar attributes of a `pd.Timestamp` read by the core
(`ts.hour`, `ts.dayofweek`, `ts.dayofyear`, `ts.is_leap_year`,
`ts.month`). -/
structure Tstamp where
  hour : ℕ
  dayofweek : ℕ
  dayofyear : ℕ
  is_leap_year : Bool
  month : ℕ
  /-- ordinal calendar date, for `.date()` comparisons -/
  day : ℤ := 0
deriving DecidableEq

/-- `config.DemandConfig` (plain validated values). -/
structure DemandConfig where
  inelastic : Bool := false
  base_intercept : ℚ := 45
  slope : ℚ := -7
  daily_seasonality : Bool := true
  day_peak_hour : ℚ := 14
  day_amp : ℚ := 1 / 4
  weekend_drop : ℚ := 1 / 10
  annual_seasonality : Bool := true
  winter_amp : ℚ := 3 / 20
  summer_amp : ℚ := -1 / 10
deriving DecidableEq

/-- `DemandCurve._season(ts)`.  `cosPi x` stands for `cos (π * x)`; the code
computes `np.cos((h - peak_hour) / 12 * np.pi)`. -/
def season (cfg : DemandConfig) (cosPi : ℚ → ℚ) (ts : Tstamp) : ℚ :=
  if cfg.daily_seasonality then
    let day_bump := 1 + cfg.day_amp * cosPi (((ts.hour : ℚ) - cfg.day_peak_hour) / 12)
    let weekend := 1 - (if 5 ≤ ts.dayofweek then cfg.weekend_drop else 0)
    max 0 (day_bump * weekend)
  else 1

/-- `DemandCurve._annual_season(ts)`; the cosine argument
`2π(doy - 15)/days_in_year` is passed to `cosPi` in units of π. -/
def annual_season (cfg : DemandConfig) (cosPi : ℚ → ℚ) (ts : Tstamp) : ℚ :=
  if cfg.annual_seasonality then
    let days_in_year : ℚ := if ts.is_leap_year then 366 else 365
    let seasonal_wave := cosPi (2 * ((ts.dayofyear : ℚ) - 15) / days_in_year)
    let avg_amp := (cfg.winter_amp - cfg.summer_amp) / 2
    let offset := (cfg.winter_amp + cfg.summer_amp) / 2
    max 0 (1 + offset + avg_amp * seasonal_wave)
  else 1

/-- `DemandCurve.q_at_price(p, ts)`. -/
def q_at_price (cfg : DemandConfig) (cosPi : ℚ → ℚ) (p : ℚ) (ts : Tstamp) : ℚ :=
  if cfg.inelastic then
    max 0 (cfg.base_intercept * season cfg cosPi ts * annual_season cfg cosPi ts)
  else
    let price_intercept := cfg.base_intercept * season cfg cosPi ts * annual_season cfg cosPi ts
    max 0 ((p - price_intercept) / cfg.slope)

/-- `DemandCurve.p_at_quantity(q, ts)`. -/
def p_at_quantity (cfg : DemandConfig) (cosPi : ℚ → ℚ) (q : ℚ) (ts : Tstamp) : ℚ :=
  if cfg.inelastic then
    let fixed_demand := cfg.base_intercept * season cfg cosPi ts * annual_season cfg cosPi ts
    if |q - fixed_demand| < 1 / 100 then cfg.base_intercept
    else if q < fixed_demand then 1000000
    else -1000000
  else
    let price_intercept := cfg.base_intercept * season cfg cosPi ts * annual_season cfg cosPi ts
    price_intercept + cfg.slope * q

/-! ## supply.py

`vals` snapshots are modelled as partial maps `String → Option ℚ`:
`vals.get(k, 0.0)` is `(vals k).getD 0` and a bare `vals[k]` is a required
key whose absence (`KeyError`) propagates as `none`.  The wind and solar
availabilities are resolved once per hour (`aW`, `aS`): within a fixed
timestamp this is exactly what both `direct` mode (a `vals` lookup) and
`weather_simulation` mode (a per-hour cached weather value, see
`WindWeatherModel` below) produce on every `supply_at` call. -/

/-- Per-technology breakdown returned by `SupplyCurve.supply_at`. -/
structure Breakdown where
  wind : ℚ
  solar : ℚ
  nuclear : ℚ
  coal : ℚ
  gas : ℚ
deriving DecidableEq

/-- `SupplyCurve._mc_bounds(fuel_price, eta_lb, eta_ub)`; `none` models the
`float("inf")` returned for non-positive efficiency bounds. -/
def mc_bounds (fuel_price eta_lb eta_ub : ℚ) : Option ℚ × Option ℚ :=
  if eta_lb ≤ 0 ∨ eta_ub ≤ 0 then (none, none)
  else (some (fuel_price / eta_ub), some (fuel_price / eta_lb))

/-- `SupplyCurve._thermal_output(price, vals, tech)`. -/
def thermal_output (price : ℚ) (vals : String → Option ℚ) (tech : String) : Option ℚ :=
  let cap := (vals ("cap." ++ tech)).getD 0 * (vals ("avail." ++ tech)).getD 0
  if cap ≤ 0 then some 0
  else
    match vals ("fuel." ++ tech) with
    | none => none
    | some fuel =>
      let pb := mc_bounds fuel ((vals ("eta_lb." ++ tech)).getD 0)
        ((vals ("eta_ub." ++ tech)).getD 0)
      some (linear_ramp price pb.1 pb.2 cap)

/-- `SupplyCurve._nuclear_output(vals)`. -/
def nuclear_output (vals : String → Option ℚ) : ℚ :=
  (vals "cap.nuclear").getD 0 * (vals "avail.nuclear").getD 0

/-- `SupplyCurve._wind_output` / `_solar_output` with the availability for
the hour already resolved to `avail`. -/
def must_run_base (vals : String → Option ℚ) (tech : String) (avail : ℚ) : ℚ :=
  let cap := (vals ("cap." ++ tech)).getD 0
  if cap ≤ 0 then 0 else cap * avail

/-- `SupplyCurve._renewable_output(price, vals, tech, base_output)`. -/
def renewable_output (price : ℚ) (vals : String → Option ℚ) (tech : String)
    (base_output : ℚ) : ℚ :=
  if base_output ≤ 0 then 0
  else
    let bid_min := (vals ("bid." ++ tech ++ ".min")).getD (-200)
    let bid_max := (vals ("bid." ++ tech ++ ".max")).getD (-50)
    linear_ramp price (some bid_min) (some bid_max) base_output

/-- `SupplyCurve.supply_at(price, ts, vals)`: total output and breakdown. -/
def supply_at (price : ℚ) (vals : String → Option ℚ) (aW aS : ℚ) :
    Option (ℚ × Breakdown) :=
  let nuc_base := nuclear_output vals
  let wind_base := must_run_base vals "wind" aW
  let solar_base := must_run_base vals "solar" aS
  let nuc_q := renewable_output price vals "nuclear" nuc_base
  let wind_q := renewable_output price vals "wind" wind_base
  let solar_q := renewable_output price vals "solar" solar_base
  match thermal_output price vals "coal", thermal_output price vals "gas" with
  | some coal_q, some gas_q =>
    some (wind_q + solar_q + nuc_q + coal_q + gas_q,
      ⟨wind_q, solar_q, nuc_q, coal_q, gas_q⟩)
  | _, _ => none

/-- Total supplied quantity, totalised with default 0 (only used where a
prior `supply_at` success guarantees the lookup cannot fail). -/
def supplyQ (price : ℚ) (vals : String → Option ℚ) (aW aS : ℚ) : ℚ :=
  ((supply_at price vals aW aS).map Prod.fst).getD 0

/-- `SupplyCurve.curve_for_time(ts, vals, price_grid)`, totals only. -/
def curveTotals (vals : String → Option ℚ) (aW aS : ℚ) :
    List ℚ → Option (List ℚ)
  | [] => some []
  | p :: ps =>
    match supply_at p vals aW aS, curveTotals vals aW aS ps with
    | some q, some rest => some (q.1 :: rest)
    | _, _ => none

/-- `np.searchsorted(a, v, side="left")` on a sorted array: the leftmost
index at which `v` could be inserted, i.e. the first index with `v ≤ a[i]`
(= `a.length` when there is none).  `curve_for_time` totals are sorted
because supply is nondecreasing in price (`supplyQ_mono` below). -/
def searchsortedLeft (a : List ℚ) (v : ℚ) : ℕ :=
  a.findIdx (fun x => v ≤ x)

/-- `SupplyCurve.supply_price_at_quantity(q, ts, vals, price_grid)`. -/
def supply_price_at_quantity (q : ℚ) (vals : String → Option ℚ) (aW aS : ℚ)
    (price_grid : List ℚ) : Option ℚ :=
  match curveTotals vals aW aS price_grid with
  | none => none
  | some Q =>
    let idx := searchsortedLeft Q q
    if idx = 0 then some (price_grid.getD 0 0)
    else if price_grid.length ≤ idx then some (price_grid.getD (price_grid.length - 1) 0)
    else
      let q0 := Q.getD (idx - 1) 0
      let q1 := Q.getD idx 0
      let p0 := price_grid.getD (idx - 1) 0
      let p1 := price_grid.getD idx 0
      if q1 = q0 then some p1
      else
        let w := (q - q0) / (q1 - q0)
        some (p0 * (1 - w) + p1 * w)

/-! ## simulate.py: find_equilibrium -/

/-- Abstract model of `scipy.optimize.brentq(f, a, b)`: `none` models the
`ValueError` raised when the bracket is invalid or the root is not found. -/
def RootFinder : Type := (ℚ → ℚ) → ℚ → ℚ → Option ℚ

/-- A root finder is sound when a returned root lies inside the bracket and
is exact (idealisation of brentq's convergence on a sign-changing
bracket). -/
def RootFinder.Sound (rf : RootFinder) : Prop :=
  ∀ f a b r, rf f a b = some r → a ≤ r ∧ r ≤ b ∧ f r = 0

/-- Totalised inverse supply price, default 0; inside `find_equilibrium`
the defaulting is unreachable because the initial `supply_at` success
implies every later supply evaluation succeeds (fuel keys do not depend on
the price or quantity argument). -/
def supplyPriceQ (q : ℚ) (vals : String → Option ℚ) (aW aS : ℚ)
    (price_grid : List ℚ) : ℚ :=
  (supply_price_at_quantity q vals aW aS price_grid).getD 0

/-- `simulate.find_equilibrium(ts, demand, supply, vals, price_grid)`
returning `(Q*, P*)`; `none` models an uncaught exception (only the
`KeyError` for a missing fuel driver — `ValueError`/`RuntimeError` from the
root finder are caught and recovered by the boundary-clipping branches). -/
def find_equilibrium (cfg : DemandConfig) (cosPi : ℚ → ℚ) (rf : RootFinder)
    (vals : String → Option ℚ) (aW aS : ℚ) (price_grid : List ℚ)
    (ts : Tstamp) : Option (ℚ × ℚ) :=
  let p_max := price_grid.getD (price_grid.length - 1) 0
  match supply_at p_max vals aW aS with
  | none => none
  | some qu =>
    let q_upper := qu.1
    if cfg.inelastic then
      let q_demand := q_at_price cfg cosPi 0 ts
      if q_upper < q_demand then some (supplyQ p_max vals aW aS, p_max)
      else
        let p_min := price_grid.getD 0 0
        let f_inelastic := fun p => supplyQ p vals aW aS - q_demand
        match rf f_inelastic p_min p_max with
        | some p_star => some (q_demand, p_star)
        | none =>
          let q_supply_at_min := supplyQ (price_grid.getD 0 0) vals aW aS
          if q_demand ≤ q_supply_at_min then some (q_demand, price_grid.getD 0 0)
          else some (supplyQ (price_grid.getD (price_grid.length - 1) 0) vals aW aS,
            price_grid.getD (price_grid.length - 1) 0)
    else
      let p_min := price_grid.getD 0 0
      let q_demand_at_min := q_at_price cfg cosPi p_min ts
      let q_supply_at_min := supplyQ p_min vals aW aS
      if q_demand_at_min * (999 / 1000) ≤ q_supply_at_min then
        some (q_demand_at_min, p_min)
      else
        let q_demand_at_max := q_at_price cfg cosPi p_max ts
        let q_supply_at_max := supplyQ p_max vals aW aS
        if q_supply_at_max * (1001 / 1000) ≤ q_demand_at_max then
          some (q_supply_at_max, p_max)
        else
          let f := fun q => supplyPriceQ q vals aW aS price_grid - p_at_quantity cfg cosPi q ts
          let q_min := max 0 (min q_supply_at_min q_demand_at_min * (9 / 10))
          let q_max := min q_supply_at_max q_demand_at_max * (11 / 10)
          if q_max ≤ q_min then
            let q_star := (q_supply_at_max + q_demand_at_max) / 2
            some (q_star, p_at_quantity cfg cosPi q_star ts)
          else
            match rf f q_min q_max with
            | some q_star => some (q_star, p_at_quantity cfg cosPi q_star ts)
            | none =>
              if q_supply_at_max * (8 / 10) < q_demand_at_max then
                some (q_supply_at_max, p_max)
              else some (q_demand_at_min, p_min)

/-- The degenerate elastic branch of `find_equilibrium` in which the
bracket collapses (`q_max <= q_min`) and the code returns the midpoint
quantity with an *unclipped* demand price. -/
def midpointBranch (cfg : DemandConfig) (cosPi : ℚ → ℚ)
    (vals : String → Option ℚ) (aW aS : ℚ) (price_grid : List ℚ)
    (ts : Tstamp) : Prop :=
  cfg.inelastic = false ∧
  (let p_min := price_grid.getD 0 0
   let p_max := price_grid.getD (price_grid.length - 1) 0
   let q_demand_at_min := q_at_price cfg cosPi p_min ts
   let q_supply_at_min := supplyQ p_min vals aW aS
   let q_demand_at_max := q_at_price cfg cosPi p_max ts
   let q_supply_at_max := supplyQ p_max vals aW aS
   ¬ q_demand_at_min * (999 / 1000) ≤ q_supply_at_min ∧
   ¬ q_supply_at_max * (1001 / 1000) ≤ q_demand_at_max ∧
   min q_supply_at_max q_demand_at_max * (11 / 10) ≤
     max 0 (min q_supply_at_min q_demand_at_min * (9 / 10)))

/-! ## regimes.py -/

/-- One entry of `RegimeSchedule.segments`:
`{"name":..., "days":int, "dist":{...}, "transition_hours":int}`. -/
structure Segment where
  name : String
  days : ℕ
  dist : DistSpec
  transition_hours : ℤ := 0
deriving DecidableEq

/-- Hours covered by one segment's label block (`seg["days"] * 24`). -/
def segHours (s : Segment) : ℕ := s.days * 24

/-- Length of the schedule's hourly index (`sum(days) * 24`). -/
def totalHours (segs : List Segment) : ℕ := (segs.map segHours).sum

/-- Position of the segment whose label block contains hour `h` (hours are
offsets from the start of the index). -/
def containingSeg : List Segment → ℕ → ℕ
  | [], _ => 0
  | s :: rest, h => if h < segHours s then 0 else containingSeg rest (h - segHours s) + 1

/-- `self.labels.loc[ts]`: the regime label at hour `h`. -/
def labelAt (segs : List Segment) (h : ℕ) : String :=
  match segs.get? (containingSeg segs h) with
  | some s => s.name
  | none => ""

/-- `self.labels[self.labels == name].index[0]` as an hour offset: the first
hour carrying label `name` (`none` when the label never occurs). -/
def firstHourFrom (off : ℕ) : List Segment → String → Option ℕ
  | [], _ => none
  | s :: rest, nm =>
    if s.name = nm ∧ 0 < segHours s then some off
    else firstHourFrom (off + segHours s) rest nm

/-- `self.labels[self.labels == name].index[-1]` as an hour offset: the last
hour carrying label `name`. -/
def lastHourFrom (off : ℕ) : List Segment → String → Option ℕ
  | [], _ => none
  | s :: rest, nm =>
    match lastHourFrom (off + segHours s) rest nm with
    | some x => some x
    | none => if s.name = nm ∧ 0 < segHours s then some (off + segHours s - 1) else none

/-- `RegimeSchedule._blend(ts, seg_idx)` = `(w_curr, w_next, next_seg_idx)`. -/
def blend (segs : List Segment) (ts : ℕ) (seg_idx : ℕ) : ℚ × ℚ × Option ℕ :=
  match segs.get? seg_idx with
  | none => (1, 0, none)
  | some seg =>
    let th := seg.transition_hours
    if th ≤ 0 ∨ segs.length - 1 ≤ seg_idx then (1, 0, none)
    else
      let seg_end : ℤ := (((lastHourFrom 0 segs seg.name).getD 0 : ℕ) : ℤ)
      let hours_to_end : ℤ := seg_end - (ts : ℤ)
      if 0 ≤ hours_to_end ∧ hours_to_end < th then
        let w_next : ℚ := 1 - (hours_to_end : ℚ) / (th : ℚ)
        (1 - w_next, w_next, some (seg_idx + 1))
      else (1, 0, none)

/-- One blended parameter: `w_curr * dist_curr.get(k, 0) + w_next *
dist_next.get(k, 0)` when the key is in either dict, else the current
dict's (absent) entry. -/
def blendKey (c n : Option ℚ) (w_curr w_next : ℚ) : Option ℚ :=
  match c, n with
  | none, none => none
  | _, _ => some (w_curr * c.getD 0 + w_next * n.getD 0)

/-- Blended bounds: union of extremes, with a missing side treated as the
corresponding infinity (`.get("bounds", {}).get("low", -np.inf)` etc.);
produced only when either dict carries bounds. -/
def blendBounds (c n : Option Bounds) : Option Bounds :=
  match c, n with
  | none, none => none
  | _, _ =>
    let cb := c.getD ⟨none, none⟩
    let nb := n.getD ⟨none, none⟩
    let lo : Option ℚ := match cb.low, nb.low with
      | some a, some b => some (min a b)
      | _, _ => none
    let hi : Option ℚ := match cb.high, nb.high with
      | some a, some b => some (max a b)
      | _, _ => none
    some ⟨lo, hi⟩

/-- The blended parameter dict `p` built inside `value_at`'s AR1/RW loop
(identical on every loop iteration, so computed once here). -/
def blendParams (curr nxt : DistSpec) (w_curr w_next : ℚ) : DistSpec :=
  { curr with
    mu := blendKey curr.mu nxt.mu w_curr w_next
    sigma := blendKey curr.sigma nxt.sigma w_curr w_next
    phi := blendKey curr.phi nxt.phi w_curr w_next
    drift := blendKey curr.drift nxt.drift w_curr w_next
    start := blendKey curr.start nxt.start w_curr w_next
    slope := blendKey curr.slope nxt.slope w_curr w_next
    bounds := blendBounds curr.bounds nxt.bounds }

/-- `for _ in range(steps): v = stateful_step(self.rng, v, p)`. -/
def stepLoop (p : DistSpec) : ℕ → Option ℚ → RNG → Option (Option ℚ × RNG)
  | 0, v, r => some (v, r)
  | n + 1, v, r =>
    match stateful_step r v p with
    | none => none
    | some vr => stepLoop p n (some vr.1) vr.2

/-- The static data of a `RegimeSchedule` (`varname` is only used for
labelling output columns). -/
structure Schedule where
  segments : List Segment
  series_map : String → Option (ℤ → ℚ)

/-- The mutable per-call state of a `RegimeSchedule` (`_last_ts`,
`_last_value`, `_last_seg_idx`) together with the generator it draws from
(`self.rng`; in `build_schedules` one generator object is shared by every
schedule).  The `_step_counter` attribute is omitted: it is written but
never read by any code path (`stateful_step`'s linear branch keeps its own
counter in the spec dict and is unreachable from `value_at`). -/
structure RSState where
  lastTs : Option ℤ := none
  lastValue : Option ℚ := none
  lastSegIdx : Option ℕ := none
  rng : RNG

/-- `RegimeSchedule.value_at(ts)`: returns `((value, regime_name), state')`;
`none` models an uncaught exception (empty index, missing empirical series,
missing required distribution parameter, unsupported kind). -/
def value_at (sch : Schedule) (st : RSState) (ts0 : ℤ) :
    Option ((ℚ × String) × RSState) :=
  let segs := sch.segments
  let total := totalHours segs
  if total = 0 then none
  else
    let tsZ : ℤ := min (max ts0 0) ((total : ℤ) - 1)
    let ts : ℕ := tsZ.toNat
    let seg_name := labelAt segs ts
    let seg_idx := segs.findIdx (fun s => s.name = seg_name)
    let wb := blend segs ts seg_idx
    let w_curr := wb.1
    let w_next := wb.2.1
    let next_idx := wb.2.2
    match segs.get? seg_idx with
    | none => none
    | some curr =>
      let dist_curr := curr.dist
      let dist_next : Option DistSpec := match next_idx with
        | none => none
        | some j => (segs.get? j).map (fun s => s.dist)
      let steps : ℕ := match st.lastTs with
        | none => 1
        | some l => (max 1 (tsZ - l)).toNat
      let lastValue := if st.lastSegIdx ≠ none ∧ st.lastSegIdx ≠ some seg_idx
        then none else st.lastValue
      let kind := strLower dist_curr.kind
      let outcome : Option (ℚ × RNG) :=
        if kind = "empirical" then
          match empirical_at sch.series_map tsZ dist_curr with
          | none => none
          | some v => some (v, st.rng)
        else if kind = "ar1" ∨ kind = "rw" ∨ kind = "linear" then
          if kind = "linear" then
            let start := dist_curr.start.getD 0
            let slope := dist_curr.slope.getD 0
            let seg_start : ℤ := (((firstHourFrom 0 segs seg_name).getD 0 : ℕ) : ℤ)
            let hours_from_start : ℤ := (ts : ℤ) - seg_start
            some (clamp (start + slope * (hours_from_start : ℚ)) dist_curr.bounds, st.rng)
          else
            let p := match dist_next with
              | some dn =>
                if 0 < w_next then blendParams dist_curr dn w_curr w_next else dist_curr
              | none => dist_curr
            match stepLoop p steps lastValue st.rng with
            | some (some v, r') => some (v, r')
            | _ => none
        else
          match dist_next with
          | some dn =>
            if 0 < w_next then
              match iid_sample st.rng dist_curr with
              | none => none
              | some vr0 =>
                match iid_sample vr0.2 dn with
                | none => none
                | some vr1 => some (w_curr * vr0.1 + w_next * vr1.1, vr1.2)
            else iid_sample st.rng dist_curr
          | none => iid_sample st.rng dist_curr
      match outcome with
      | none => none
      | some vr =>
        some ((vr.1, seg_name),
          { lastTs := some tsZ, lastValue := some vr.1,
            lastSegIdx := some seg_idx, rng := vr.2 })

/-! ## scenario.py: segment alignment -/

/-- Python list repetition `l * n`. -/
def listRepeat (l : List α) : ℕ → List α
  | 0 => []
  | n + 1 => l ++ listRepeat l n

/-- `(target_N + len(seg_defs) - 1) // len(seg_defs)` (ceiling division for
positive denominators). -/
def ceilDiv (a b : ℕ) : ℕ := (a + b - 1) / b

/-- Regime/segment alignment of `build_schedules`, global mode
(scenario.py lines 189–193). -/
def alignGlobalMode (seg_defs : List α) (target_N : ℕ) : List α :=
  if seg_defs.length = 1 ∧ 1 < target_N then listRepeat seg_defs target_N
  else if seg_defs.length ≠ target_N then
    (listRepeat seg_defs (ceilDiv target_N seg_defs.length)).take target_N
  else seg_defs

/-- Alignment in local_only mode (scenario.py lines 243–245). -/
def alignLocalMode (seg_defs : List α) (target_N : ℕ) : List α :=
  if seg_defs.length ≠ target_N then
    (listRepeat seg_defs (ceilDiv target_N seg_defs.length)).take target_N
  else seg_defs

/-- Alignment in hybrid mode for a variable with local breakpoints
(scenario.py lines 314–316). -/
def alignHybridBreakpoint (seg_defs : List α) (target_N : ℕ) : List α :=
  if seg_defs.length ≠ target_N then
    (listRepeat seg_defs (ceilDiv target_N seg_defs.length)).take target_N
  else seg_defs

/-- Alignment in hybrid mode for a variable with local distributions but no
local breakpoints (scenario.py lines 325–329). -/
def alignHybridPartial (seg_defs : List α) (target_N : ℕ) : List α :=
  if seg_defs.length = 1 ∧ 1 < target_N then listRepeat seg_defs target_N
  else if seg_defs.length ≠ target_N then
    (listRepeat seg_defs (ceilDiv target_N seg_defs.length)).take target_N
  else seg_defs

/-! ## supply.py weather models and simulate.py loop -/

/-- `WindWeatherModel` parameters. -/
structure WindParams where
  base_cf : ℚ := 9 / 20
  rho : ℚ := 17 / 20
  sigma : ℚ := 3 / 20
deriving DecidableEq

/-- `WindWeatherModel` mutable state: its own generator, the per-hour cache
and `_last_ts` (hours are index offsets; `ts.floor("h")` is the offset
itself on an hourly index). -/
structure WindState where
  rng : RNG
  cache : List (ℕ × ℚ) := []
  lastTs : Option ℕ := none

/-- `WindWeatherModel.availability_at(ts)`; `cal` supplies the calendar
attributes of each hour offset (`.date()` comparisons use `(cal h).day`,
the ordinal date). -/
def wind_availability_at (m : WindParams) (cal : ℕ → Tstamp) (st : WindState)
    (h : ℕ) : ℚ × WindState :=
  match st.cache.lookup h with
  | some cf => (cf, st)
  | none =>
    let newDay : Bool := match st.lastTs with
      | none => true
      | some l => (cal l).day ≠ (cal h).day
    if newDay then
      let p := st.rng.normalDraw m.base_cf (1 / 10)
      let cf := npClip p.1 0 1
      (cf, { rng := p.2, cache := (h, cf) :: st.cache, lastTs := some h })
    else
      let prev_cf := ((st.lastTs.bind (fun l => st.cache.lookup l))).getD m.base_cf
      let p := st.rng.next
      let cf := npClip (m.base_cf + m.rho * (prev_cf - m.base_cf) + m.sigma * p.1) 0 1
      (cf, { rng := p.2, cache := (h, cf) :: st.cache, lastTs := some h })

/-- `SolarWeatherModel.availability_at(ts)`; `sinPi x` stands for
`sin (π * x)`. -/
def solar_availability_at (sunrise sunset : ℕ) (peak_cf : ℚ) (sinPi : ℚ → ℚ)
    (ts : Tstamp) : ℚ :=
  if sunrise ≤ ts.hour ∧ ts.hour < sunset then
    peak_cf * sinPi ((((ts.hour - sunrise : ℕ) : ℚ)) / (((sunset - sunrise : ℕ) : ℚ)))
  else 0

/-- The planned-outage configuration dict (`{enabled, months[],
<tech>_reduction}` with the code's defaults). -/
structure OutageCfg where
  enabled : Bool := true
  months : List ℕ := [5, 6, 7, 8, 9]
  nuclear_reduction : ℚ := 0
  coal_reduction : ℚ := 0
  gas_reduction : ℚ := 0
deriving DecidableEq

/-- In-place dict value update (`vals[k] = f(vals[k])` guarded by
`if k in vals`). -/
def assocUpdate (l : List (String × ℚ)) (k : String) (f : ℚ → ℚ) :
    List (String × ℚ) :=
  l.map (fun kv => if kv.1 = k then (kv.1, f kv.2) else kv)

/-- Dict assignment `vals[k] = v` (overwrite in place or append). -/
def assocSet (l : List (String × ℚ)) (k : String) (v : ℚ) :
    List (String × ℚ) :=
  if (l.lookup k).isSome then
    l.map (fun kv => if kv.1 = k then (kv.1, v) else kv)
  else l ++ [(k, v)]

/-- The planned-outage derating block of `simulate_timeseries` (applied for
`tech in ["nuclear", "coal", "gas"]` in that order). -/
def applyOutages (oc : Option OutageCfg) (ts : Tstamp)
    (vals : List (String × ℚ)) : List (String × ℚ) :=
  match oc with
  | none => vals
  | some c =>
    if c.enabled ∧ ts.month ∈ c.months then
      assocUpdate
        (assocUpdate
          (assocUpdate vals "avail.nuclear" (fun x => max 0 (x * (1 - c.nuclear_reduction))))
          "avail.coal" (fun x => max 0 (x * (1 - c.coal_reduction))))
        "avail.gas" (fun x => max 0 (x * (1 - c.gas_reduction)))
    else vals

/-- One output record of `simulate_timeseries`. -/
structure Row where
  price : ℚ
  q_cleared : ℚ
  br : Breakdown
  vals : List (String × ℚ)
  labs : List (String × String)
deriving DecidableEq

/-- Static configuration of one simulation run (already-validated plain
values; the schedules' static data is part of it). -/
structure SimConfig where
  demand_cfg : DemandConfig
  schedules : List (String × Schedule)
  price_grid : List ℚ
  hours : ℕ
  cal : ℕ → Tstamp
  outages : Option OutageCfg
  weatherMode : Bool
  windParams : WindParams
  sunrise : ℕ := 6
  sunset : ℕ := 20
  peak_cf : ℚ := 7 / 20

/-- The per-hour schedule sweep of `simulate_timeseries`: query every
schedule in dict order, threading the single shared generator through all
of them. -/
def querySchedules : List (String × Schedule) → List RSState → RNG → ℤ →
    Option (List (String × ℚ) × List (String × String) × List RSState × RNG)
  | [], _, r, _ => some ([], [], [], r)
  | (nm, sch) :: rest, sts, r, ts =>
    match sts with
    | [] => none
    | st :: sts' =>
      match value_at sch { st with rng := r } ts with
      | none => none
      | some vlst =>
        match querySchedules rest sts' vlst.2.rng ts with
        | none => none
        | some acc =>
          some ((nm, vlst.1.1) :: acc.1, (nm ++ "_regime", vlst.1.2) :: acc.2.1,
            vlst.2 :: acc.2.2.1, acc.2.2.2)

/-- One iteration of the `simulate_timeseries` hour loop. -/
def simStep (P : SimConfig) (rf : RootFinder) (cosPi sinPi : ℚ → ℚ) (h : ℕ)
    (sts : List RSState) (shared : RNG) (wind : WindState) :
    Option (Row × List RSState × RNG × WindState) :=
  let ts := P.cal h
  match querySchedules P.schedules sts shared (h : ℤ) with
  | none => none
  | some q =>
    let vals1 := applyOutages P.outages ts q.1
    let labs := q.2.1
    let sts' := q.2.2.1
    let shared' := q.2.2.2
    let wres := if P.weatherMode then wind_availability_at P.windParams P.cal wind h
      else (((vals1.lookup "avail.wind").getD 0), wind)
    let aW := wres.1
    let wind' := wres.2
    let aS := if P.weatherMode then
        solar_availability_at P.sunrise P.sunset P.peak_cf sinPi ts
      else (vals1.lookup "avail.solar").getD 0
    let vals2 := if P.weatherMode then
        assocSet (assocSet vals1 "avail.wind" aW) "avail.solar" aS
      else vals1
    if (vals2.lookup "fuel.coal").isSome ∧ (vals2.lookup "fuel.gas").isSome then
      match find_equilibrium P.demand_cfg cosPi rf (fun k => vals2.lookup k)
          aW aS P.price_grid ts with
      | none => none
      | some qp =>
        match supply_at qp.2 (fun k => vals2.lookup k) aW aS with
        | none => none
        | some tbr =>
          some ({ price := qp.2, q_cleared := qp.1, br := tbr.2,
                  vals := vals2, labs := labs }, sts', shared', wind')
    else none

/-- The `simulate_timeseries` hour loop, hour `h` to `h + n - 1`. -/
def runLoop (P : SimConfig) (rf : RootFinder) (cosPi sinPi : ℚ → ℚ) :
    ℕ → ℕ → List RSState → RNG → WindState → Option (List Row)
  | 0, _, _, _, _ => some []
  | n + 1, h, sts, r, w =>
    match simStep P rf cosPi sinPi h sts r w with
    | none => none
    | some step =>
      match runLoop P rf cosPi sinPi n (h + 1) step.2.1 step.2.2.1 step.2.2.2 with
      | none => none
      | some rows => some (step.1 :: rows)

/-- A whole scenario run: `np.random.default_rng(seed)` is modelled by the
derivation function `derive` applied to the integer seed (`deriveW` is the
supply curve's own generator, constructed from the same seed in
`simulate_timeseries`); every schedule shares the single generator object
created in `build_schedules`, and the wind model owns its own. -/
def runSim (P : SimConfig) (rf : RootFinder) (cosPi sinPi : ℚ → ℚ)
    (derive deriveW : ℕ → RNG) (seed : ℕ) : Option (List Row) :=
  let initStates : List RSState := P.schedules.map (fun _ => { rng := derive seed })
  runLoop P rf cosPi sinPi P.hours 0 initStates (derive seed)
    { rng := deriveW seed }

/-! ## Helper lemmas -/

theorem clamp_mem (x lo hi : ℚ) (h : lo ≤ hi) :
    lo ≤ clamp x (some ⟨some lo, some hi⟩) ∧ clamp x (some ⟨some lo, some hi⟩) ≤ hi := by
  refine ⟨le_min (le_max_right x lo) h, min_le_right _ hi⟩

theorem diffsMinusOne_length (prev : ℤ) (l : List ℤ) :
    (diffsMinusOne prev l).length = l.length := by
  induction l generalizing prev with
  | nil => rfl
  | cons c cs ih => simp [diffsMinusOne, ih]

theorem diffsMinusOne_sum (prev last : ℤ) (l : List ℤ) :
    (diffsMinusOne prev (l ++ [last])).sum = last - prev - (l.length + 1) := by
  induction l generalizing prev with
  | nil => simp [diffsMinusOne]
  | cons c cs ih =>
    have hc := ih c
    simp only [List.cons_append, diffsMinusOne, List.sum_cons, List.length_cons] at hc ⊢
    rw [show cs.append [last] = cs ++ [last] from rfl, hc]
    push_cast
    ring

theorem diffsMinusOne_nonneg (prev : ℤ) (l : List ℤ)
    (h : List.Chain' (· < ·) (prev :: l)) :
    ∀ p ∈ diffsMinusOne prev l, 0 ≤ p := by
  induction l generalizing prev with
  | nil => intro p hp; simp [diffsMinusOne] at hp
  | cons c cs ih =>
    intro p hp
    rcases List.chain'_cons.mp h with ⟨hpc, hrest⟩
    simp only [diffsMinusOne, List.mem_cons] at hp
    rcases hp with rfl | hp
    · omega
    · exact ih c hrest p hp

theorem sum_map_const_add (a : ℤ) (l : List ℤ) :
    (l.map (fun p => a + p)).sum = l.length * a + l.sum := by
  induction l with
  | nil => simp
  | cons c cs ih => simp [ih]; ring

/-! ## C3 -/

/-- C3 (confirmed): for every distribution spec carrying bounds
`{low, high}` (a well-formed clamp interval, `low ≤ high`), every value
produced by `iid_sample`, `stateful_step` and `empirical_at` satisfies
`low ≤ v ≤ high`, regardless of the kind and of the rng state. -/
theorem sampled_values_respect_bounds (spec : DistSpec) (lo hi : ℚ)
    (hb : spec.bounds = some ⟨some lo, some hi⟩) (hlh : lo ≤ hi) :
    (∀ r v r', iid_sample r spec = some (v, r') → lo ≤ v ∧ v ≤ hi) ∧
    (∀ r prev v r', stateful_step r prev spec = some (v, r') → lo ≤ v ∧ v ≤ hi) ∧
    (∀ sm ts v, empirical_at sm ts spec = some v → lo ≤ v ∧ v ≤ hi) := by
  refine ⟨?_, ?_, ?_⟩
  · intro r v r' h
    simp only [iid_sample, hb] at h
    repeat' split at h
    all_goals
      first
      | exact Option.noConfusion h
      | · simp only [Option.some.injEq, Prod.mk.injEq] at h
          exact h.1 ▸ clamp_mem _ lo hi hlh
  · intro r prev v r' h
    simp only [stateful_step, hb] at h
    repeat' split at h
    all_goals
      first
      | exact Option.noConfusion h
      | · simp only [Option.some.injEq, Prod.mk.injEq] at h
          exact h.1 ▸ clamp_mem _ lo hi hlh
  · intro sm ts v h
    simp only [empirical_at, hb] at h
    repeat' split at h
    all_goals
      first
      | exact Option.noConfusion h
      | · simp only [Option.some.injEq] at h
          exact h ▸ clamp_mem _ lo hi hlh

/-- C3 witness: a concrete spec (`const 5` clamped to `[0, 1]`) evaluated
concretely. -/
theorem sampled_values_respect_bounds_witness :
    (0 : ℚ) ≤ 1 ∧ (1 : ℚ) ≤ 1 :=
  (sampled_values_respect_bounds
      { kind := "const", v := some 5, bounds := some ⟨some 0, some 1⟩ }
      0 1 rfl (by norm_num)).1
    ⟨fun _ => 0, 0⟩ 1 ⟨fun _ => 0, 0⟩ rfl

/-! ## C4 -/

/-- C4 counterexample: with `days = 1, N = 2, min_segment = 0` (which
satisfies the claim's hypothesis `N * min_segment ≤ days`) and the valid
rng draw `cuts = [0]` (a strictly increasing choice from
`arange(remaining + N - 1) = {0, 1}`), `random_partition` returns `[0, 1]`,
which contains the non-positive segment length `0`. -/
theorem random_partition_counterexample :
    2 * 0 ≤ 1 ∧
    List.Chain' (· < ·) [(-1 : ℤ), 0, 1 + 2 - 1] ∧
    random_partition 1 2 0 [0] = some [0, 1] ∧
    ¬ (∀ p ∈ [(0 : ℤ), 1], 0 < p) := by
  refine ⟨by decide, by norm_num [List.chain'_cons], by decide, ?_⟩
  intro hall
  exact absurd (hall 0 (by decide)) (by decide)

/-- C4 (amended): for every `days`, `N`, `min_segment ≥ 1` and every valid
sorted distinct cut draw with `N * min_segment ≤ days`, `random_partition`
returns exactly `N` positive integers, each `≥ min_segment`, summing
exactly to `days`; and it fails (assertion) when `N * min_segment > days`.
(The amendment restricts positivity to `min_segment ≥ 1`: for
`min_segment = 0` a zero-length segment is possible, see the
counterexample.) -/
theorem random_partition_spec (days N ms : ℕ) (cuts : List ℕ)
    (hlen : cuts.length + 1 = N) (hms : 1 ≤ ms)
    (hchain : List.Chain' (· < ·)
      ((-1 : ℤ) :: ((cuts.map (fun c : ℕ => (c : ℤ))) ++
        [((days - N * ms : ℕ) : ℤ) + N - 1]))) :
    (N * ms ≤ days →
      ∃ parts, random_partition days N ms cuts = some parts ∧
        parts.length = N ∧ (∀ p ∈ parts, (ms : ℤ) ≤ p ∧ 0 < p) ∧
        parts.sum = (days : ℤ)) ∧
    (days < N * ms → random_partition days N ms cuts = none) := by
  constructor
  · intro hle
    by_cases hrem : days - N * ms = 0
    · refine ⟨List.replicate N (ms : ℤ), ?_, ?_, ?_, ?_⟩
      · simp [random_partition, hle, hrem]
      · simp
      · intro p hp
        rw [List.eq_of_mem_replicate hp]
        exact ⟨le_refl _, by exact_mod_cast hms⟩
      · rw [List.sum_replicate, nsmul_eq_mul]
        have : days = N * ms := by omega
        push_cast [this]
        ring
    · set R : ℤ := ((days - N * ms : ℕ) : ℤ) + N - 1 with hR
      set L : List ℤ := (cuts.map (fun c : ℕ => (c : ℤ))) ++ [R] with hL
      refine ⟨(diffsMinusOne (-1) L).map (fun p => (ms : ℤ) + p), ?_, ?_, ?_, ?_⟩
      · simp only [random_partition, if_pos hle, hL, hR]
        rw [if_neg hrem]
      · rw [List.length_map, hL, diffsMinusOne_length]
        simp [hlen]
      · intro p hp
        obtain ⟨q, hq, rfl⟩ := List.mem_map.mp hp
        have h0 : 0 ≤ q := diffsMinusOne_nonneg (-1) L hchain q hq
        constructor
        · omega
        · have : (1 : ℤ) ≤ ms := by exact_mod_cast hms
          omega
      · rw [hL, sum_map_const_add, diffsMinusOne_length, diffsMinusOne_sum]
        simp only [List.length_append, List.length_map, List.length_singleton]
        have hd : ((days - N * ms : ℕ) : ℤ) = (days : ℤ) - (N : ℤ) * ms := by
          omega
        rw [hR, hd]
        push_cast [← hlen]
        ring
  · intro hgt
    have hnle : ¬ N * ms ≤ days := by omega
    simp [random_partition, hnle]

/-- C4 witness: `random_partition 10 3 2 [1, 4] = some [3, 4, 3]`. -/
theorem random_partition_spec_witness :
    ∃ parts, random_partition 10 3 2 [1, 4] = some parts ∧
      parts.length = 3 ∧ (∀ p ∈ parts, (2 : ℤ) ≤ p ∧ 0 < p) ∧
      parts.sum = (10 : ℤ) :=
  (random_partition_spec 10 3 2 [1, 4] rfl (by decide)
    (by norm_num [List.chain'_cons])).1 (by decide)

/-! ## C7 -/

theorem season_nonneg (cfg : DemandConfig) (cosPi : ℚ → ℚ) (ts : Tstamp) :
    0 ≤ season cfg cosPi ts := by
  unfold season
  split
  · exact le_max_left 0 _
  · norm_num

theorem annual_season_nonneg (cfg : DemandConfig) (cosPi : ℚ → ℚ) (ts : Tstamp) :
    0 ≤ annual_season cfg cosPi ts := by
  unfold annual_season
  split
  · exact le_max_left 0 _
  · norm_num

/-- C7 (confirmed): in inelastic mode (with a nonnegative base demand
level), `q_at_price` returns the fixed quantity `base_intercept ×
daily_multiplier × annual_multiplier` regardless of the price argument, and
`p_at_quantity` returns the base price when `|q - fixed| < 0.01`, the large
positive sentinel `1e6` when `q` is below the fixed quantity (outside the
tolerance band) and the large negative sentinel `-1e6` when `q` is above
it. -/
theorem inelastic_demand_spec (cfg : DemandConfig) (cosPi : ℚ → ℚ)
    (ts : Tstamp) (hin : cfg.inelastic = true)
    (hbase : 0 ≤ cfg.base_intercept) :
    (∀ p : ℚ, q_at_price cfg cosPi p ts =
      cfg.base_intercept * season cfg cosPi ts * annual_season cfg cosPi ts) ∧
    (∀ q : ℚ,
      |q - cfg.base_intercept * season cfg cosPi ts * annual_season cfg cosPi ts| < 1 / 100 →
      p_at_quantity cfg cosPi q ts = cfg.base_intercept) ∧
    (∀ q : ℚ,
      ¬ |q - cfg.base_intercept * season cfg cosPi ts * annual_season cfg cosPi ts| < 1 / 100 →
      q < cfg.base_intercept * season cfg cosPi ts * annual_season cfg cosPi ts →
      p_at_quantity cfg cosPi q ts = 1000000) ∧
    (∀ q : ℚ,
      ¬ |q - cfg.base_intercept * season cfg cosPi ts * annual_season cfg cosPi ts| < 1 / 100 →
      cfg.base_intercept * season cfg cosPi ts * annual_season cfg cosPi ts < q →
      p_at_quantity cfg cosPi q ts = -1000000) := by
  have hfix : 0 ≤ cfg.base_intercept * season cfg cosPi ts * annual_season cfg cosPi ts :=
    mul_nonneg (mul_nonneg hbase (season_nonneg cfg cosPi ts))
      (annual_season_nonneg cfg cosPi ts)
  refine ⟨?_, ?_, ?_, ?_⟩
  · intro p
    simp only [q_at_price, hin, if_true]
    exact max_eq_right hfix
  · intro q htol
    simp only [p_at_quantity, hin, if_true, if_pos htol]
  · intro q htol hlt
    simp only [p_at_quantity, hin, if_true, if_neg htol, if_pos hlt]
  · intro q htol hgt
    simp only [p_at_quantity, hin, if_true, if_neg htol,
      if_neg (not_lt.mpr (le_of_lt hgt))]

/-- A concrete inelastic demand configuration (seasonality off), used by
the C7 witness. -/
def cfgInelastic : DemandConfig :=
  { inelastic := true, daily_seasonality := false, annual_seasonality := false }

/-- A concrete timestamp (noon, Monday 1 January), used by witnesses. -/
def tsNoon : Tstamp := ⟨12, 0, 1, false, 1, 0⟩

/-- C7 witness: a concrete inelastic configuration with seasonality off. -/
theorem inelastic_demand_spec_witness :
    q_at_price cfgInelastic (fun _ => 0) 7 tsNoon =
      (45 : ℚ) * season cfgInelastic (fun _ => 0) tsNoon *
        annual_season cfgInelastic (fun _ => 0) tsNoon :=
  (inelastic_demand_spec cfgInelastic (fun _ => 0) tsNoon rfl (by norm_num [cfgInelastic])).1 7

/-! ## C8 -/

theorem listRepeat_length {α : Type} (l : List α) (n : ℕ) :
    (listRepeat l n).length = n * l.length := by
  induction n with
  | zero => simp [listRepeat]
  | succ m ih => simp [listRepeat, ih]; ring

/-- C8 (confirmed): in every composition mode, when a variable's regime
list length differs from the computed segment count `N`, the aligned
segment definitions equal the regime list repeated `ceil(N / len(regimes))`
times and truncated to the first `N` entries. -/
theorem alignment_is_ceiling_repetition {α : Type} (defs : List α) (N : ℕ)
    (hne : defs ≠ []) (hdiff : defs.length ≠ N) :
    alignGlobalMode defs N = (listRepeat defs (ceilDiv N defs.length)).take N ∧
    alignLocalMode defs N = (listRepeat defs (ceilDiv N defs.length)).take N ∧
    alignHybridBreakpoint defs N = (listRepeat defs (ceilDiv N defs.length)).take N ∧
    alignHybridPartial defs N = (listRepeat defs (ceilDiv N defs.length)).take N := by
  have hspecial : defs.length = 1 ∧ 1 < N →
      listRepeat defs N = (listRepeat defs (ceilDiv N defs.length)).take N := by
    rintro ⟨h1, -⟩
    have hceil : ceilDiv N defs.length = N := by
      simp [ceilDiv, h1]
    rw [hceil, List.take_of_length_le]
    rw [listRepeat_length, h1]
    omega
  constructor
  · unfold alignGlobalMode
    split
    · exact hspecial (by assumption)
    · rfl
  refine ⟨?_, ?_, ?_⟩
  · unfold alignLocalMode
    rw [if_pos hdiff]
  · unfold alignHybridBreakpoint
    rw [if_pos hdiff]
  · unfold alignHybridPartial
    split
    · exact hspecial (by assumption)
    · rfl

/-- C8 witness: a two-entry regime list aligned to five segments. -/
theorem alignment_is_ceiling_repetition_witness :
    alignGlobalMode [10, 20] 5 = (listRepeat [10, 20] (ceilDiv 5 2)).take 5 ∧
    alignLocalMode [10, 20] 5 = (listRepeat [10, 20] (ceilDiv 5 2)).take 5 ∧
    alignHybridBreakpoint [10, 20] 5 = (listRepeat [10, 20] (ceilDiv 5 2)).take 5 ∧
    alignHybridPartial [10, 20] 5 = (listRepeat [10, 20] (ceilDiv 5 2)).take 5 :=
  alignment_is_ceiling_repetition [10, 20] 5 (by decide) (by decide)

/-! ## C6 -/

/-- A concrete `vals` snapshot for the C6 counterexample: a gas plant with
`fuel = 10`, `eta_lb = eta_ub = 1` (so `p_low = p_high = 10`) and available
capacity `1`. -/
def valsDegenerate : String → Option ℚ := fun s =>
  if s = "cap.gas" then some 1
  else if s = "avail.gas" then some 1
  else if s = "fuel.gas" then some 10
  else if s = "eta_lb.gas" then some 1
  else if s = "eta_ub.gas" then some 1
  else none

/-- C6 counterexample: at `price = 10 = p_high = fuel/eta_lb` (which is "at
or above `p_high`") the code outputs `0`, not the full available capacity
`1` demanded by the claim, because the `price ≤ p_low` branch wins when
`p_low = p_high`. -/
theorem thermal_output_counterexample :
    thermal_output 10 valsDegenerate "gas" = some 0 ∧
    (valsDegenerate "fuel.gas").getD 0 / (valsDegenerate "eta_lb.gas").getD 0 ≤ 10 ∧
    (valsDegenerate "cap.gas").getD 0 * (valsDegenerate "avail.gas").getD 0 = 1 ∧
    (0 : ℚ) ≠ 1 := by
  refine ⟨?_, ?_, ?_, by norm_num⟩
  · simp +decide [thermal_output, valsDegenerate, mc_bounds, linear_ramp]
  · simp +decide [valsDegenerate]
  · simp +decide [valsDegenerate]

/-- C6 (amended): thermal hourly output at price `p` with available
capacity `cap = capacity * availability` equals `0` if either efficiency
bound is non-positive or `cap ≤ 0`; otherwise it is `0` for
`p ≤ p_low = fuel/eta_ub`, the full available capacity for `p ≥ p_high =
fuel/eta_lb` *provided `p > p_low`* (when `p_low = p_high ≤ p` the zero
branch wins, see the counterexample), and the linear interpolation
`cap * (p - p_low)/(p_high - p_low)` strictly in between. -/
theorem thermal_output_spec (price fuel eta_lb eta_ub capacity avail : ℚ)
    (vals : String → Option ℚ) (tech : String)
    (hcap : vals ("cap." ++ tech) = some capacity)
    (havail : vals ("avail." ++ tech) = some avail)
    (hfuel : vals ("fuel." ++ tech) = some fuel)
    (hlb : vals ("eta_lb." ++ tech) = some eta_lb)
    (hub : vals ("eta_ub." ++ tech) = some eta_ub) :
    ((eta_lb ≤ 0 ∨ eta_ub ≤ 0) → thermal_output price vals tech = some 0) ∧
    (capacity * avail ≤ 0 → thermal_output price vals tech = some 0) ∧
    (0 < eta_lb → 0 < eta_ub → 0 < capacity * avail →
      (price ≤ fuel / eta_ub → thermal_output price vals tech = some 0) ∧
      (fuel / eta_ub < price → fuel / eta_lb ≤ price →
        thermal_output price vals tech = some (capacity * avail)) ∧
      (fuel / eta_ub < price → price < fuel / eta_lb →
        thermal_output price vals tech = some (capacity * avail *
          ((price - fuel / eta_ub) / (fuel / eta_lb - fuel / eta_ub))))) := by
  simp only [thermal_output, hcap, havail, hfuel, hlb, hub, Option.getD_some]
  refine ⟨?_, ?_, ?_⟩
  · intro heta
    split
    · rfl
    · rw [mc_bounds, if_pos heta]
      rfl
  · intro hc
    rw [if_pos hc]
  · intro hlb0 hub0 hc
    have hnot : ¬ (eta_lb ≤ 0 ∨ eta_ub ≤ 0) := by
      push_neg
      exact ⟨hlb0, hub0⟩
    rw [if_neg (not_le.mpr hc), mc_bounds, if_neg hnot]
    refine ⟨?_, ?_, ?_⟩
    · intro hple
      rw [linear_ramp, if_neg (not_le.mpr hc), if_pos hple]
    · intro hpl hph
      rw [linear_ramp, if_neg (not_le.mpr hc), if_neg (not_le.mpr hpl), if_pos hph]
    · intro hpl hph
      rw [linear_ramp, if_neg (not_le.mpr hc), if_neg (not_le.mpr hpl),
        if_neg (not_le.mpr hph)]
      have hd : 0 < fuel / eta_lb - fuel / eta_ub := by linarith
      have hw0 : 0 < (price - fuel / eta_ub) / (fuel / eta_lb - fuel / eta_ub) :=
        div_pos (by linarith) hd
      have hw1 : (price - fuel / eta_ub) / (fuel / eta_lb - fuel / eta_ub) < 1 :=
        (div_lt_one hd).mpr (by linarith)
      rw [min_eq_right (le_of_lt hw1), max_eq_right (le_of_lt hw0)]

/-- A concrete `vals` snapshot for the C6 witness: a gas plant with
marginal-cost bracket `[60, 80]` and available capacity `2`. -/
def valsRamp : String → Option ℚ := fun s =>
  if s = "cap.gas" then some 2
  else if s = "avail.gas" then some 1
  else if s = "fuel.gas" then some 240
  else if s = "eta_lb.gas" then some 3
  else if s = "eta_ub.gas" then some 4
  else none

/-- C6 witness: at `price = 70`, halfway up the `[60, 80]` ramp, the gas
output is half the available capacity. -/
theorem thermal_output_spec_witness :
    thermal_output 70 valsRamp "gas" = some ((2 : ℚ) * 1 *
      ((70 - 240 / 4) / (240 / 3 - 240 / 4))) :=
  (((thermal_output_spec 70 240 3 4 2 1 valsRamp "gas"
      rfl rfl rfl rfl rfl).2.2 (by norm_num) (by norm_num)
      (by norm_num)).2.2 (by norm_num) (by norm_num))

/-! ## Supply-curve shape lemmas (shared by C1 and C10) -/

theorem linear_ramp_nonneg (price : ℚ) (pl ph : Option ℚ) (cap : ℚ) :
    0 ≤ linear_ramp price pl ph cap := by
  rcases pl with _ | pl <;> rcases ph with _ | ph <;> simp only [linear_ramp]
  · exact le_refl 0
  · exact le_refl 0
  · exact le_refl 0
  · split_ifs with h1 h2 h3
    · exact le_refl 0
    · exact le_refl 0
    · linarith
    · exact mul_nonneg (by linarith) (le_max_left 0 _)

theorem linear_ramp_le_cap (price : ℚ) (pl ph : Option ℚ) (cap : ℚ)
    (hcap : 0 ≤ cap) : linear_ramp price pl ph cap ≤ cap := by
  rcases pl with _ | pl <;> rcases ph with _ | ph <;> simp only [linear_ramp]
  · exact hcap
  · exact hcap
  · exact hcap
  · split_ifs with h1 h2 h3
    · exact hcap
    · exact hcap
    · exact le_refl cap
    · have hle1 : max 0 (min 1 ((price - pl) / (ph - pl))) ≤ 1 :=
        max_le (by norm_num) (min_le_left 1 _)
      have := mul_le_mul_of_nonneg_left hle1 hcap
      simpa using this

theorem linear_ramp_mono {p p' : ℚ} (hpp : p ≤ p') (pl ph : Option ℚ)
    (cap : ℚ) : linear_ramp p pl ph cap ≤ linear_ramp p' pl ph cap := by
  rcases pl with _ | pl <;> rcases ph with _ | ph <;> simp only [linear_ramp]
  · exact le_refl 0
  · exact le_refl 0
  · exact le_refl 0
  · split_ifs with h1 h2 h3 h4 h5 h6 h7 h8 h9
    any_goals exact le_refl _
    any_goals linarith
    · exact mul_nonneg (by linarith) (le_max_left 0 _)
    · have hle1 : max 0 (min 1 ((p - pl) / (ph - pl))) ≤ 1 :=
        max_le (by norm_num) (min_le_left 1 _)
      have := mul_le_mul_of_nonneg_left hle1 (le_of_lt (not_le.mp h1))
      simpa using this
    · have hd : (0 : ℚ) < ph - pl := by linarith
      have hw : (p - pl) / (ph - pl) ≤ (p' - pl) / (ph - pl) := by
        apply div_le_div_of_nonneg_right _ (le_of_lt hd)
        linarith
      have hmono : (0 : ℚ) ⊔ 1 ⊓ ((p - pl) / (ph - pl)) ≤
          0 ⊔ 1 ⊓ ((p' - pl) / (ph - pl)) :=
        max_le_max (le_refl 0) (min_le_min (le_refl 1) hw)
      exact mul_le_mul_of_nonneg_left hmono (le_of_lt (not_le.mp h1))

theorem renewable_output_nonneg (price : ℚ) (vals : String → Option ℚ)
    (tech : String) (base : ℚ) : 0 ≤ renewable_output price vals tech base := by
  unfold renewable_output
  split
  · exact le_refl 0
  · exact linear_ramp_nonneg _ _ _ _

theorem renewable_output_mono {p p' : ℚ} (hpp : p ≤ p')
    (vals : String → Option ℚ) (tech : String) (base : ℚ) :
    renewable_output p vals tech base ≤ renewable_output p' vals tech base := by
  unfold renewable_output
  split
  · exact le_refl 0
  · exact linear_ramp_mono hpp _ _ _

theorem thermal_output_isSome_price (p p' : ℚ) (vals : String → Option ℚ)
    (tech : String) (h : (thermal_output p vals tech).isSome) :
    (thermal_output p' vals tech).isSome := by
  simp only [thermal_output] at h ⊢
  by_cases hcap : (vals ("cap." ++ tech)).getD 0 * (vals ("avail." ++ tech)).getD 0 ≤ 0
  · simp [hcap]
  · rcases hf : vals ("fuel." ++ tech) with _ | fuel
    · rw [hf] at h
      simp [hcap] at h
    · simp [hcap]

theorem thermal_output_nonneg {price : ℚ} {vals : String → Option ℚ}
    {tech : String} {q : ℚ} (h : thermal_output price vals tech = some q) :
    0 ≤ q := by
  simp only [thermal_output] at h
  by_cases hcap : (vals ("cap." ++ tech)).getD 0 * (vals ("avail." ++ tech)).getD 0 ≤ 0
  · rw [if_pos hcap] at h
    simp only [Option.some.injEq] at h
    exact h ▸ le_refl 0
  · rw [if_neg hcap] at h
    rcases hf : vals ("fuel." ++ tech) with _ | fuel <;> rw [hf] at h
    · simp at h
    · simp only [Option.some.injEq] at h
      exact h ▸ linear_ramp_nonneg _ _ _ _

theorem thermal_output_mono {p p' : ℚ} (hpp : p ≤ p')
    {vals : String → Option ℚ} {tech : String} {q q' : ℚ}
    (h : thermal_output p vals tech = some q)
    (h' : thermal_output p' vals tech = some q') : q ≤ q' := by
  simp only [thermal_output] at h h'
  by_cases hcap : (vals ("cap." ++ tech)).getD 0 * (vals ("avail." ++ tech)).getD 0 ≤ 0
  · rw [if_pos hcap] at h h'
    simp only [Option.some.injEq] at h h'
    rw [← h, ← h']
  · rw [if_neg hcap] at h h'
    rcases hf : vals ("fuel." ++ tech) with _ | fuel <;> rw [hf] at h h'
    · simp at h
    · simp only [Option.some.injEq] at h h'
      rw [← h, ← h']
      exact linear_ramp_mono hpp _ _ _

theorem supply_at_isSome_price (p p' : ℚ) (vals : String → Option ℚ)
    (aW aS : ℚ) (h : (supply_at p vals aW aS).isSome) :
    (supply_at p' vals aW aS).isSome := by
  simp only [supply_at] at h ⊢
  rcases hc : thermal_output p vals "coal" with _ | cq <;> rw [hc] at h
  · simp at h
  rcases hg : thermal_output p vals "gas" with _ | gq <;> rw [hg] at h
  · simp at h
  have hc' : (thermal_output p' vals "coal").isSome :=
    thermal_output_isSome_price p p' vals "coal" (by simp [hc])
  have hg' : (thermal_output p' vals "gas").isSome :=
    thermal_output_isSome_price p p' vals "gas" (by simp [hg])
  rcases hc2 : thermal_output p' vals "coal" with _ | cq' <;> rw [hc2] at hc'
  · simp at hc'
  rcases hg2 : thermal_output p' vals "gas" with _ | gq' <;> rw [hg2] at hg'
  · simp at hg'
  simp

theorem supply_at_nonneg {p : ℚ} {vals : String → Option ℚ} {aW aS : ℚ}
    {out : ℚ × Breakdown} (h : supply_at p vals aW aS = some out) :
    0 ≤ out.1 := by
  simp only [supply_at] at h
  rcases hc : thermal_output p vals "coal" with _ | cq <;> rw [hc] at h
  · simp at h
  rcases hg : thermal_output p vals "gas" with _ | gq <;> rw [hg] at h
  · simp at h
  simp only [Option.some.injEq] at h
  have h1 := renewable_output_nonneg p vals "wind" (must_run_base vals "wind" aW)
  have h2 := renewable_output_nonneg p vals "solar" (must_run_base vals "solar" aS)
  have h3 := renewable_output_nonneg p vals "nuclear" (nuclear_output vals)
  have h4 := thermal_output_nonneg hc
  have h5 := thermal_output_nonneg hg
  rw [← h]
  dsimp only
  linarith

theorem supply_at_mono {p p' : ℚ} (hpp : p ≤ p') {vals : String → Option ℚ}
    {aW aS : ℚ} {out out' : ℚ × Breakdown}
    (h : supply_at p vals aW aS = some out)
    (h' : supply_at p' vals aW aS = some out') : out.1 ≤ out'.1 := by
  simp only [supply_at] at h h'
  rcases hc : thermal_output p vals "coal" with _ | cq <;> rw [hc] at h
  · simp at h
  rcases hg : thermal_output p vals "gas" with _ | gq <;> rw [hg] at h
  · simp at h
  rcases hc' : thermal_output p' vals "coal" with _ | cq' <;> rw [hc'] at h'
  · simp at h'
  rcases hg' : thermal_output p' vals "gas" with _ | gq' <;> rw [hg'] at h'
  · simp at h'
  simp only [Option.some.injEq] at h h'
  rw [← h, ← h']
  dsimp only
  have h1 := renewable_output_mono hpp vals "wind" (must_run_base vals "wind" aW)
  have h2 := renewable_output_mono hpp vals "solar" (must_run_base vals "solar" aS)
  have h3 := renewable_output_mono hpp vals "nuclear" (nuclear_output vals)
  have h4 := thermal_output_mono hpp hc hc'
  have h5 := thermal_output_mono hpp hg hg'
  linarith

theorem supplyQ_nonneg (p : ℚ) (vals : String → Option ℚ) (aW aS : ℚ) :
    0 ≤ supplyQ p vals aW aS := by
  unfold supplyQ
  rcases h : supply_at p vals aW aS with _ | out
  · simp
  · simpa using supply_at_nonneg h

theorem supplyQ_mono {p p' : ℚ} (hpp : p ≤ p') {vals : String → Option ℚ}
    {aW aS : ℚ} (hid : (supply_at p vals aW aS).isSome) :
    supplyQ p vals aW aS ≤ supplyQ p' vals aW aS := by
  rcases h : supply_at p vals aW aS with _ | out
  · rw [h] at hid
    simp at hid
  · rcases h' : supply_at p' vals aW aS with _ | out'
    · exact absurd (supply_at_isSome_price p p' vals aW aS (by simp [h])) (by simp [h'])
    · unfold supplyQ
      rw [h, h']
      simpa using supply_at_mono hpp h h'

theorem curveTotals_eq_map {vals : String → Option ℚ} {aW aS : ℚ}
    {grid Q : List ℚ} (h : curveTotals vals aW aS grid = some Q) :
    Q = grid.map (fun p => supplyQ p vals aW aS) ∧
      ∀ p ∈ grid, (supply_at p vals aW aS).isSome := by
  induction grid generalizing Q with
  | nil =>
    simp only [curveTotals, Option.some.injEq] at h
    simp [← h]
  | cons p ps ih =>
    simp only [curveTotals] at h
    rcases hs : supply_at p vals aW aS with _ | out <;> rw [hs] at h
    · simp at h
    · rcases hr : curveTotals vals aW aS ps with _ | rest <;> rw [hr] at h
      · simp at h
      · simp only [Option.some.injEq] at h
        obtain ⟨hmap, hall⟩ := ih hr
        constructor
        · rw [← h, List.map_cons, ← hmap]
          have : supplyQ p vals aW aS = out.1 := by
            unfold supplyQ
            rw [hs]
            rfl
          rw [this]
        · intro x hx
          rcases List.mem_cons.mp hx with rfl | hx2
          · simp [hs]
          · exact hall x hx2

theorem sorted_getD_mono {l : List ℚ} (hs : List.Pairwise (· ≤ ·) l)
    {i j : ℕ} (hij : i ≤ j) (hj : j < l.length) : l.getD i 0 ≤ l.getD j 0 := by
  rcases lt_or_eq_of_le hij with hlt | rfl
  · have hi : i < l.length := lt_trans hlt hj
    have hr := List.pairwise_iff_getElem.mp hs i j hi hj hlt
    rw [List.getD_eq_getElem?_getD, List.getD_eq_getElem?_getD,
      List.getElem?_eq_getElem hi, List.getElem?_eq_getElem hj]
    simpa using hr
  · exact le_refl _

theorem searchsortedLeft_found {Q : List ℚ} {q : ℚ}
    (h : searchsortedLeft Q q < Q.length) : q ≤ Q.getD (searchsortedLeft Q q) 0 := by
  have hp := @List.findIdx_getElem _ (fun x => decide (q ≤ x)) Q h
  rw [List.getD_eq_getElem?_getD, List.getElem?_eq_getElem h]
  simpa using hp

theorem searchsortedLeft_not_found {Q : List ℚ} {q : ℚ} {j : ℕ}
    (h : j < searchsortedLeft Q q) : Q.getD j 0 < q := by
  have hj : j < Q.length :=
    lt_of_lt_of_le h (List.findIdx_le_length (fun x => decide (q ≤ x)))
  have hp := @List.not_of_lt_findIdx _ (fun x => decide (q ≤ x)) Q j h
  rw [List.getD_eq_getElem?_getD, List.getElem?_eq_getElem hj]
  simp only [decide_eq_false_iff_not, not_le] at hp
  simpa using hp

theorem searchsortedLeft_all {Q : List ℚ} {q : ℚ}
    (h : Q.length ≤ searchsortedLeft Q q) : ∀ x ∈ Q, x < q := by
  have heq : searchsortedLeft Q q = Q.length :=
    le_antisymm (List.findIdx_le_length (fun x => decide (q ≤ x))) h
  have := List.findIdx_eq_length.mp heq
  intro x hx
  have hb := this x hx
  simp only [decide_eq_false_iff_not, not_le] at hb
  exact hb

theorem searchsortedLeft_zero_of_le {Q : List ℚ} {q x : ℚ} {l : List ℚ}
    (hQ : Q = x :: l) (h : q ≤ x) : searchsortedLeft Q q = 0 := by
  subst hQ
  simp [searchsortedLeft, List.findIdx_cons, h]

/-- Full case analysis of `supply_price_at_quantity` on a non-empty
strictly increasing grid (shared auxiliary). -/
theorem supply_price_cases_aux (vals : String → Option ℚ)
    (aW aS q : ℚ) (grid Q : List ℚ)
    (hne : grid ≠ []) (hsort : List.Chain' (· < ·) grid)
    (hQ : curveTotals vals aW aS grid = some Q) :
    ∃ pr, supply_price_at_quantity q vals aW aS grid = some pr ∧
      grid.getD 0 0 ≤ pr ∧ pr ≤ grid.getD (grid.length - 1) 0 ∧
      (q ≤ Q.getD 0 0 → pr = grid.getD 0 0) ∧
      ((∀ x ∈ Q, x < q) → pr = grid.getD (grid.length - 1) 0) ∧
      (¬ q ≤ Q.getD 0 0 → ¬ (∀ x ∈ Q, x < q) →
        ∃ i, 0 < i ∧ i < grid.length ∧
          Q.getD (i - 1) 0 < q ∧ q ≤ Q.getD i 0 ∧
          pr = grid.getD (i - 1) 0 *
              (1 - (q - Q.getD (i - 1) 0) / (Q.getD i 0 - Q.getD (i - 1) 0)) +
            grid.getD i 0 * ((q - Q.getD (i - 1) 0) / (Q.getD i 0 - Q.getD (i - 1) 0)) ∧
          grid.getD (i - 1) 0 ≤ pr ∧ pr ≤ grid.getD i 0) := by
  obtain ⟨hmap, hall⟩ := curveTotals_eq_map hQ
  have hlen : Q.length = grid.length := by
    rw [hmap, List.length_map]
  have hglen : 0 < grid.length := List.length_pos.mpr hne
  have hQlen : 0 < Q.length := hlen ▸ hglen
  have hgs : List.Pairwise (· ≤ ·) grid :=
    (List.chain'_iff_pairwise.mp hsort).imp le_of_lt
  have hheadlast : grid.getD 0 0 ≤ grid.getD (grid.length - 1) 0 :=
    sorted_getD_mono hgs (Nat.zero_le _) (by omega)
  simp only [supply_price_at_quantity, hQ]
  by_cases h0 : searchsortedLeft Q q = 0
  · rw [if_pos h0]
    have hq0 : q ≤ Q.getD 0 0 := by
      have := @searchsortedLeft_found Q q (by omega)
      rwa [h0] at this
    refine ⟨grid.getD 0 0, rfl, le_refl _, hheadlast, fun _ => rfl, ?_, ?_⟩
    · intro hallq
      rcases Q with _ | ⟨x, l⟩
      · simp at hQlen
      · exact absurd (hallq x (List.mem_cons_self x l)) (by simpa using hq0)
    · intro hq0' _
      exact absurd hq0 hq0'
  · by_cases hbig : grid.length ≤ searchsortedLeft Q q
    · rw [if_neg h0, if_pos hbig]
      have hallq : ∀ x ∈ Q, x < q := searchsortedLeft_all (hlen ▸ hbig)
      refine ⟨grid.getD (grid.length - 1) 0, rfl, hheadlast, le_refl _, ?_, fun _ => rfl, ?_⟩
      · intro hq0
        rcases hQe : Q with _ | ⟨x, l⟩
        · rw [hQe] at hQlen
          simp at hQlen
        · rw [hQe] at hq0
          simp only [List.getD_cons_zero] at hq0
          exact absurd (searchsortedLeft_zero_of_le hQe hq0) h0
      · intro _ hnall
        exact absurd hallq hnall
    · rw [if_neg h0, if_neg hbig]
      have hilt : searchsortedLeft Q q < grid.length := lt_of_not_le hbig
      have hiltQ : searchsortedLeft Q q < Q.length := hlen ▸ hilt
      have hipos : 0 < searchsortedLeft Q q := Nat.pos_of_ne_zero h0
      have hq1 : q ≤ Q.getD (searchsortedLeft Q q) 0 := searchsortedLeft_found hiltQ
      have hq0lt : Q.getD (searchsortedLeft Q q - 1) 0 < q :=
        searchsortedLeft_not_found (by omega)
      have hne10 : ¬ Q.getD (searchsortedLeft Q q) 0 = Q.getD (searchsortedLeft Q q - 1) 0 := by
        intro heq
        rw [heq] at hq1
        exact absurd (lt_of_lt_of_le hq0lt hq1) (lt_irrefl _)
      rw [if_neg hne10]
      set i := searchsortedLeft Q q with hidef
      set q0 := Q.getD (i - 1) 0 with hq0def
      set q1 := Q.getD i 0 with hq1def
      set p0 := grid.getD (i - 1) 0 with hp0def
      set p1 := grid.getD i 0 with hp1def
      set w := (q - q0) / (q1 - q0) with hwdef
      have hp01 : p0 ≤ p1 := sorted_getD_mono hgs (by omega) hilt
      have hdpos : 0 < q1 - q0 := by linarith
      have hwpos : 0 < w := div_pos (by linarith) hdpos
      have hwle : w ≤ 1 := by
        rw [hwdef, div_le_one hdpos]
        linarith
      have hval : p0 * (1 - w) + p1 * w = p0 + (p1 - p0) * w := by ring
      have hlow : p0 ≤ p0 * (1 - w) + p1 * w := by
        rw [hval]
        nlinarith
      have hhigh : p0 * (1 - w) + p1 * w ≤ p1 := by
        rw [hval]
        nlinarith
      refine ⟨p0 * (1 - w) + p1 * w, rfl, ?_, ?_, ?_, ?_, ?_⟩
      · exact le_trans (sorted_getD_mono hgs (Nat.zero_le _) (by omega)) hlow
      · exact le_trans hhigh (sorted_getD_mono hgs (by omega) (by omega))
      · intro hq00
        rcases hQe : Q with _ | ⟨x, l⟩
        · rw [hQe] at hQlen
          simp at hQlen
        · rw [hQe] at hq00
          simp only [List.getD_cons_zero] at hq00
          exact absurd (searchsortedLeft_zero_of_le hQe hq00) h0
      · intro hallq
        exact absurd (hallq q1 (by
          rw [hq1def]
          rw [List.getD_eq_getElem?_getD, List.getElem?_eq_getElem hiltQ]
          exact List.getElem_mem hiltQ)) (by linarith)
      · intro _ _
        exact ⟨i, hipos, hilt, hq0lt, hq1, rfl, hlow, hhigh⟩

/-- C10 (confirmed, with the price grid assumed non-empty and strictly
increasing): `supply_price_at_quantity` returns a price within
`[price_grid[0], price_grid[-1]]`; it returns `price_grid[0]` when `q` is
at or below the supply quantity at the lowest grid price, `price_grid[-1]`
when `q` strictly exceeds the supply quantity at every grid price, and
otherwise the linear interpolation between the two bracketing grid prices,
which lies between them. -/
theorem supply_price_at_quantity_spec (vals : String → Option ℚ)
    (aW aS q : ℚ) (grid Q : List ℚ)
    (hne : grid ≠ []) (hsort : List.Chain' (· < ·) grid) (hq : 0 ≤ q)
    (hQ : curveTotals vals aW aS grid = some Q) :
    ∃ pr, supply_price_at_quantity q vals aW aS grid = some pr ∧
      grid.getD 0 0 ≤ pr ∧ pr ≤ grid.getD (grid.length - 1) 0 ∧
      (q ≤ Q.getD 0 0 → pr = grid.getD 0 0) ∧
      ((∀ x ∈ Q, x < q) → pr = grid.getD (grid.length - 1) 0) ∧
      (¬ q ≤ Q.getD 0 0 → ¬ (∀ x ∈ Q, x < q) →
        ∃ i, 0 < i ∧ i < grid.length ∧
          Q.getD (i - 1) 0 < q ∧ q ≤ Q.getD i 0 ∧
          pr = grid.getD (i - 1) 0 *
              (1 - (q - Q.getD (i - 1) 0) / (Q.getD i 0 - Q.getD (i - 1) 0)) +
            grid.getD i 0 * ((q - Q.getD (i - 1) 0) / (Q.getD i 0 - Q.getD (i - 1) 0)) ∧
          grid.getD (i - 1) 0 ≤ pr ∧ pr ≤ grid.getD i 0) :=
  supply_price_cases_aux vals aW aS q grid Q hne hsort hQ

/-- C10 witness: one thermal plant ramping over `[60, 80]` on the grid
`[0, 50, 100]`; the quantity `1` brackets between the grid prices 50
and 100. -/
theorem supply_price_at_quantity_spec_witness :
    ∃ pr, supply_price_at_quantity 1 valsRamp 0 0 [0, 50, 100] = some pr ∧
      ([(0 : ℚ), 50, 100].getD 0 0 ≤ pr ∧
        pr ≤ [(0 : ℚ), 50, 100].getD ([(0 : ℚ), 50, 100].length - 1) 0) := by
  obtain ⟨pr, h1, h2, h3, -⟩ :=
    supply_price_at_quantity_spec valsRamp 0 0 1 [0, 50, 100]
      ((supplyQ 0 valsRamp 0 0) :: (supplyQ 50 valsRamp 0 0) ::
        (supplyQ 100 valsRamp 0 0) :: [])
      (by simp) (by norm_num [List.chain'_cons]) (by norm_num)
      (by
        simp only [curveTotals]
        rcases hs0 : supply_at 0 valsRamp 0 0 with _ | o0
        · exact absurd hs0 (by simp +decide [supply_at, thermal_output, valsRamp,
            mc_bounds, renewable_output, must_run_base, nuclear_output])
        · rcases hs50 : supply_at 50 valsRamp 0 0 with _ | o50
          · exact absurd hs50 (by simp +decide [supply_at, thermal_output, valsRamp,
              mc_bounds, renewable_output, must_run_base, nuclear_output])
          · rcases hs100 : supply_at 100 valsRamp 0 0 with _ | o100
            · exact absurd hs100 (by simp +decide [supply_at, thermal_output, valsRamp,
                mc_bounds, renewable_output, must_run_base, nuclear_output])
            · simp only [Option.some.injEq]
              have e0 : supplyQ 0 valsRamp 0 0 = o0.1 := by
                unfold supplyQ
                rw [hs0]
                rfl
              have e50 : supplyQ 50 valsRamp 0 0 = o50.1 := by
                unfold supplyQ
                rw [hs50]
                rfl
              have e100 : supplyQ 100 valsRamp 0 0 = o100.1 := by
                unfold supplyQ
                rw [hs100]
                rfl
              rw [e0, e50, e100])
  exact ⟨pr, h1, h2, h3⟩

/-! ## C1 -/

theorem q_at_price_nonneg (cfg : DemandConfig) (cosPi : ℚ → ℚ) (p : ℚ)
    (ts : Tstamp) : 0 ≤ q_at_price cfg cosPi p ts := by
  unfold q_at_price
  split <;> exact le_max_left 0 _

theorem curveTotals_isSome {vals : String → Option ℚ} {aW aS : ℚ}
    (grid : List ℚ) (hsup : ∀ p ∈ grid, (supply_at p vals aW aS).isSome) :
    ∃ Q, curveTotals vals aW aS grid = some Q := by
  induction grid with
  | nil => exact ⟨[], rfl⟩
  | cons p ps ih =>
    obtain ⟨Q, hQ⟩ := ih (fun x hx => hsup x (List.mem_cons_of_mem p hx))
    have hp := hsup p (List.mem_cons_self p ps)
    rcases hs : supply_at p vals aW aS with _ | out
    · rw [hs] at hp
      simp at hp
    · exact ⟨out.1 :: Q, by simp [curveTotals, hs, hQ]⟩

theorem supplyPriceQ_bounds (vals : String → Option ℚ) (aW aS q : ℚ)
    (grid : List ℚ) (hne : grid ≠ []) (hsort : List.Chain' (· < ·) grid)
    (hsup : ∀ p ∈ grid, (supply_at p vals aW aS).isSome) :
    grid.getD 0 0 ≤ supplyPriceQ q vals aW aS grid ∧
      supplyPriceQ q vals aW aS grid ≤ grid.getD (grid.length - 1) 0 := by
  obtain ⟨Q, hQ⟩ := curveTotals_isSome grid hsup
  obtain ⟨pr, h1, h2, h3, -⟩ := supply_price_cases_aux vals aW aS q grid Q hne hsort hQ
  unfold supplyPriceQ
  rw [h1]
  exact ⟨h2, h3⟩

/-- The concrete elastic demand configuration of the C1 counterexample. -/
def cfgElastic : DemandConfig :=
  { inelastic := false, base_intercept := 50, slope := -1,
    daily_seasonality := false, annual_seasonality := false }

/-- The concrete `vals` snapshot of the C1 counterexample: a single gas
plant of available capacity 1000 ramping over `[60, 80]`; demand hits zero
before the grid ceiling while floor supply is zero, collapsing the solver
bracket. -/
def valsMidpoint : String → Option ℚ := fun s =>
  if s = "cap.gas" then some 1000
  else if s = "avail.gas" then some 1
  else if s = "fuel.gas" then some 240
  else if s = "eta_lb.gas" then some 3
  else if s = "eta_ub.gas" then some 4
  else none

/-- C1 counterexample: on the grid `[0, 100]` with elastic demand
`P = 50 - Q` and the gas plant above, `find_equilibrium` takes the
degenerate midpoint branch (`q_max = 0 ≤ 0 = q_min`) and returns
`(Q*, P*) = (500, -450)`: the price lies far below `price_grid[0] = 0`,
refuting the invariant `P* ∈ [price_grid[0], price_grid[-1]]`. -/
theorem find_equilibrium_counterexample :
    find_equilibrium cfgElastic (fun _ => 0) (fun _ _ _ => none) valsMidpoint
        0 0 [0, 100] tsNoon = some (500, -450) ∧
    [(0 : ℚ), 100].getD 0 0 = 0 ∧
    ¬ ((0 : ℚ) ≤ -450) := by
  refine ⟨?_, by norm_num, by norm_num⟩
  norm_num +decide [find_equilibrium, supply_at, thermal_output, mc_bounds,
    linear_ramp, renewable_output, must_run_base, nuclear_output, supplyQ,
    q_at_price, p_at_quantity, season, annual_season, cfgElastic, valsMidpoint]

/-- C1 (amended): for every timestamp, demand configuration, vals snapshot
(with the initial supply evaluation succeeding — a missing fuel driver is a
`KeyError`, not part of the solver), sound root finder, and non-empty
strictly increasing price grid, `find_equilibrium` returns a pair with
`Q* ≥ 0` always, and `P* ∈ [price_grid[0], price_grid[-1]]` in every branch
*except* the degenerate elastic midpoint branch (bracket collapse
`q_max ≤ q_min`), where `P*` is the unclipped demand price at the midpoint
quantity and can leave the grid (see the counterexample); root-finder
failure is recovered by boundary clipping and never surfaced as an
error. -/
theorem find_equilibrium_spec (cfg : DemandConfig) (cosPi : ℚ → ℚ)
    (rf : RootFinder) (vals : String → Option ℚ) (aW aS : ℚ)
    (grid : List ℚ) (ts : Tstamp)
    (hrf : RootFinder.Sound rf) (hne : grid ≠ [])
    (hsort : List.Chain' (· < ·) grid)
    (hsup : (supply_at (grid.getD (grid.length - 1) 0) vals aW aS).isSome) :
    ∃ qp : ℚ × ℚ, find_equilibrium cfg cosPi rf vals aW aS grid ts = some qp ∧
      0 ≤ qp.1 ∧
      (¬ midpointBranch cfg cosPi vals aW aS grid ts →
        grid.getD 0 0 ≤ qp.2 ∧ qp.2 ≤ grid.getD (grid.length - 1) 0) := by
  have hsupall : ∀ p, (supply_at p vals aW aS).isSome := fun p =>
    supply_at_isSome_price _ p vals aW aS hsup
  have hgs : List.Pairwise (· ≤ ·) grid :=
    (List.chain'_iff_pairwise.mp hsort).imp le_of_lt
  have hglen : 0 < grid.length := List.length_pos.mpr hne
  have hpmm : grid.getD 0 0 ≤ grid.getD (grid.length - 1) 0 :=
    sorted_getD_mono hgs (Nat.zero_le _) (by omega)
  rcases hs : supply_at (grid.getD (grid.length - 1) 0) vals aW aS with _ | qu
  · rw [hs] at hsup
    simp at hsup
  simp only [find_equilibrium, hs]
  by_cases hinel : cfg.inelastic = true
  · rw [if_pos hinel]
    by_cases hover : qu.1 < q_at_price cfg cosPi 0 ts
    · rw [if_pos hover]
      exact ⟨_, rfl, supplyQ_nonneg _ _ _ _, fun _ => ⟨hpmm, le_refl _⟩⟩
    · rw [if_neg hover]
      rcases hrfc : rf (fun p => supplyQ p vals aW aS - q_at_price cfg cosPi 0 ts)
          (grid.getD 0 0) (grid.getD (grid.length - 1) 0) with _ | p_star
      · by_cases hle : q_at_price cfg cosPi 0 ts ≤ supplyQ (grid.getD 0 0) vals aW aS
        · rw [if_pos hle]
          exact ⟨_, rfl, q_at_price_nonneg _ _ _ _, fun _ => ⟨le_refl _, hpmm⟩⟩
        · rw [if_neg hle]
          exact ⟨_, rfl, supplyQ_nonneg _ _ _ _, fun _ => ⟨hpmm, le_refl _⟩⟩
      · obtain ⟨ha, hb, -⟩ := hrf _ _ _ _ hrfc
        exact ⟨_, rfl, q_at_price_nonneg _ _ _ _, fun _ => ⟨ha, hb⟩⟩
  · rw [if_neg hinel]
    by_cases hfloor : q_at_price cfg cosPi (grid.getD 0 0) ts * (999 / 1000) ≤
        supplyQ (grid.getD 0 0) vals aW aS
    · rw [if_pos hfloor]
      exact ⟨_, rfl, q_at_price_nonneg _ _ _ _, fun _ => ⟨le_refl _, hpmm⟩⟩
    · rw [if_neg hfloor]
      by_cases hceil : supplyQ (grid.getD (grid.length - 1) 0) vals aW aS * (1001 / 1000) ≤
          q_at_price cfg cosPi (grid.getD (grid.length - 1) 0) ts
      · rw [if_pos hceil]
        exact ⟨_, rfl, supplyQ_nonneg _ _ _ _, fun _ => ⟨hpmm, le_refl _⟩⟩
      · rw [if_neg hceil]
        by_cases hmid : min (supplyQ (grid.getD (grid.length - 1) 0) vals aW aS)
            (q_at_price cfg cosPi (grid.getD (grid.length - 1) 0) ts) * (11 / 10) ≤
            max 0 (min (supplyQ (grid.getD 0 0) vals aW aS)
              (q_at_price cfg cosPi (grid.getD 0 0) ts) * (9 / 10))
        · rw [if_pos hmid]
          refine ⟨_, rfl, ?_, ?_⟩
          · have h1 := supplyQ_nonneg (grid.getD (grid.length - 1) 0) vals aW aS
            have h2 := q_at_price_nonneg cfg cosPi (grid.getD (grid.length - 1) 0) ts
            dsimp only
            linarith
          · intro hnm
            exfalso
            apply hnm
            simp only [midpointBranch]
            refine ⟨by simpa using hinel, hfloor, hceil, hmid⟩
        · rw [if_neg hmid]
          rcases hrfc : rf (fun qq => supplyPriceQ qq vals aW aS grid -
                p_at_quantity cfg cosPi qq ts)
              (max 0 (min (supplyQ (grid.getD 0 0) vals aW aS)
                (q_at_price cfg cosPi (grid.getD 0 0) ts) * (9 / 10)))
              (min (supplyQ (grid.getD (grid.length - 1) 0) vals aW aS)
                (q_at_price cfg cosPi (grid.getD (grid.length - 1) 0) ts) * (11 / 10))
              with _ | q_star
          · by_cases hfb : supplyQ (grid.getD (grid.length - 1) 0) vals aW aS * (8 / 10) <
                q_at_price cfg cosPi (grid.getD (grid.length - 1) 0) ts
            · rw [if_pos hfb]
              exact ⟨_, rfl, supplyQ_nonneg _ _ _ _, fun _ => ⟨hpmm, le_refl _⟩⟩
            · rw [if_neg hfb]
              exact ⟨_, rfl, q_at_price_nonneg _ _ _ _, fun _ => ⟨le_refl _, hpmm⟩⟩
          · obtain ⟨ha, hb, hc⟩ := hrf _ _ _ _ hrfc
            refine ⟨_, rfl, le_trans (le_max_left 0 _) ha, fun _ => ?_⟩
            have hps : supplyPriceQ q_star vals aW aS grid =
                p_at_quantity cfg cosPi q_star ts := by linarith [hc]
            obtain ⟨hb1, hb2⟩ := supplyPriceQ_bounds vals aW aS q_star grid hne hsort
              (fun p _ => hsupall p)
            rw [hps] at hb1 hb2
            exact ⟨hb1, hb2⟩

/-- C1 witness: grid `[0, 100]`, the one-plant `vals` of the C6 witness,
trivial root finder; the floor-clip branch fires. -/
theorem find_equilibrium_spec_witness :
    ∃ qp : ℚ × ℚ, find_equilibrium cfgElastic (fun _ => 0) (fun _ _ _ => none)
        valsRamp 0 0 [0, 100] tsNoon = some qp ∧
      0 ≤ qp.1 ∧
      (¬ midpointBranch cfgElastic (fun _ => 0) valsRamp 0 0 [0, 100] tsNoon →
        [(0 : ℚ), 100].getD 0 0 ≤ qp.2 ∧
          qp.2 ≤ [(0 : ℚ), 100].getD ([(0 : ℚ), 100].length - 1) 0) :=
  find_equilibrium_spec cfgElastic (fun _ => 0) (fun _ _ _ => none) valsRamp 0 0
    [0, 100] tsNoon (fun _ _ _ _ h => by cases h) (by simp)
    (by norm_num [List.chain'_cons])
    (by simp +decide [supply_at, thermal_output, valsRamp, mc_bounds,
      renewable_output, must_run_base, nuclear_output])

/-! ## Schedule index structure lemmas (shared by C2 and C5) -/

/-- Hour offset at which segment `i`'s label block starts. -/
def spanStart (segs : List Segment) (i : ℕ) : ℕ :=
  ((segs.take i).map segHours).sum

theorem spanStart_zero (segs : List Segment) : spanStart segs 0 = 0 := rfl

theorem spanStart_cons_succ (s : Segment) (rest : List Segment) (j : ℕ) :
    spanStart (s :: rest) (j + 1) = segHours s + spanStart rest j := by
  simp [spanStart, List.take_cons]

theorem spanStart_add_le (segs : List Segment) (i : ℕ) (hi : i < segs.length) :
    spanStart segs i + segHours (segs.get ⟨i, hi⟩) ≤ totalHours segs := by
  induction segs generalizing i with
  | nil => simp at hi
  | cons s rest ih =>
    cases i with
    | zero =>
      simp only [spanStart_zero, List.get, totalHours, List.map_cons, List.sum_cons]
      omega
    | succ j =>
      have hj : j < rest.length := by simpa using hi
      have := ih j hj
      simp only [spanStart_cons_succ, List.get, totalHours, List.map_cons,
        List.sum_cons] at this ⊢
      omega

theorem containingSeg_spanStart (segs : List Segment) (i h : ℕ)
    (hi : i < segs.length) (hh : h < segHours (segs.get ⟨i, hi⟩)) :
    containingSeg segs (spanStart segs i + h) = i := by
  induction segs generalizing i with
  | nil => simp at hi
  | cons s rest ih =>
    cases i with
    | zero =>
      simp only [List.get] at hh
      simp [containingSeg, spanStart_zero, hh]
    | succ j =>
      have hj : j < rest.length := by simpa using hi
      simp only [List.get] at hh
      have hrec := ih j hj hh
      simp only [spanStart_cons_succ, containingSeg]
      rw [if_neg (by omega)]
      rw [show segHours s + spanStart rest j + h - segHours s =
        spanStart rest j + h by omega, hrec]

theorem labelAt_spanStart (segs : List Segment) (i h : ℕ)
    (hi : i < segs.length) (hh : h < segHours (segs.get ⟨i, hi⟩)) :
    labelAt segs (spanStart segs i + h) = (segs.get ⟨i, hi⟩).name := by
  unfold labelAt
  rw [containingSeg_spanStart segs i h hi hh, List.get?_eq_get hi]

theorem nodup_name_get_ne (segs : List Segment)
    (hnodup : (segs.map Segment.name).Nodup) {i j : ℕ}
    (hi : i < segs.length) (hj : j < segs.length) (hij : i ≠ j) :
    (segs.get ⟨i, hi⟩).name ≠ (segs.get ⟨j, hj⟩).name := by
  have hp : List.Pairwise (· ≠ ·) (segs.map Segment.name) := hnodup
  have hl : (segs.map Segment.name).length = segs.length := List.length_map _ _
  rcases lt_or_gt_of_ne hij with hlt | hgt
  · have := List.pairwise_iff_getElem.mp hp i j (hl ▸ hi) (hl ▸ hj) hlt
    simpa using this
  · have := List.pairwise_iff_getElem.mp hp j i (hl ▸ hj) (hl ▸ hi) hgt
    simp only [List.getElem_map] at this
    intro hEq
    exact this hEq.symm

theorem findIdx_name_eq (segs : List Segment)
    (hnodup : (segs.map Segment.name).Nodup) (i : ℕ) (hi : i < segs.length) :
    segs.findIdx (fun s => s.name = (segs.get ⟨i, hi⟩).name) = i := by
  rw [List.findIdx_eq hi]
  constructor
  · simp
  · intro j hji
    have hj : j < segs.length := lt_trans hji hi
    have hne := nodup_name_get_ne segs hnodup hj hi (ne_of_lt hji)
    simpa using hne

theorem firstHourFrom_spanStart (segs : List Segment)
    (hnodup : (segs.map Segment.name).Nodup) (i : ℕ) (hi : i < segs.length)
    (hpos : 0 < segHours (segs.get ⟨i, hi⟩)) (off : ℕ) :
    firstHourFrom off segs (segs.get ⟨i, hi⟩).name =
      some (off + spanStart segs i) := by
  induction segs generalizing i off with
  | nil => simp at hi
  | cons s rest ih =>
    cases i with
    | zero =>
      simp only [List.get] at hpos ⊢
      simp [firstHourFrom, hpos, spanStart_zero]
    | succ j =>
      have hj : j < rest.length := by simpa using hi
      simp only [List.get] at hpos ⊢
      have hne : ¬ (s.name = (rest.get ⟨j, hj⟩).name ∧ 0 < segHours s) := by
        intro hand
        have := @nodup_name_get_ne (s :: rest) hnodup 0 (j + 1)
          (by simp) (by simpa using hi) (by omega)
        simp only [List.get] at this
        exact this hand.1
      rw [firstHourFrom, if_neg hne, ih (by simpa using hnodup.of_cons) j hj hpos]
      rw [spanStart_cons_succ]
      congr 1
      omega

/-! ## C5 -/

/-- C5 (confirmed, for distinct segment names): for a segment whose
distribution kind is `linear` with `start = s` and `slope = m`, `value_at`
at the timestamp `h` whole hours after the segment's first hour returns
exactly `clamp (s + m * h)` — independent of the rng state and of all
previous queries (the entire mutable state `st` is universally
quantified), and the rng is left untouched (no blending, no stepping, no
draws). -/
theorem linear_segment_value (sch : Schedule) (st : RSState) (i h : ℕ)
    (hi : i < sch.segments.length)
    (hnodup : (sch.segments.map Segment.name).Nodup)
    (hkind : strLower ((sch.segments.get ⟨i, hi⟩).dist.kind) = "linear")
    (hh : h < segHours (sch.segments.get ⟨i, hi⟩)) :
    ∃ st' : RSState,
      value_at sch st ((spanStart sch.segments i + h : ℕ) : ℤ) =
        some ((clamp ((sch.segments.get ⟨i, hi⟩).dist.start.getD 0 +
              (sch.segments.get ⟨i, hi⟩).dist.slope.getD 0 * (h : ℚ))
            ((sch.segments.get ⟨i, hi⟩).dist.bounds),
          (sch.segments.get ⟨i, hi⟩).name), st') ∧
      st'.rng = st.rng := by
  have hlt : spanStart sch.segments i + h < totalHours sch.segments :=
    lt_of_lt_of_le (by omega) (spanStart_add_le sch.segments i hi)
  have h0 : ¬ totalHours sch.segments = 0 := by omega
  have hlabel := labelAt_spanStart sch.segments i h hi hh
  have hfind := findIdx_name_eq sch.segments hnodup i hi
  have hfirst := firstHourFrom_spanStart sch.segments hnodup i hi (by omega) 0
  rw [Nat.zero_add] at hfirst
  have hget : sch.segments.get? i = some (sch.segments.get ⟨i, hi⟩) :=
    List.get?_eq_get hi
  have hmax : max ((spanStart sch.segments i + h : ℕ) : ℤ) 0 =
      ((spanStart sch.segments i + h : ℕ) : ℤ) :=
    max_eq_left (Int.natCast_nonneg _)
  have hminz : min ((spanStart sch.segments i + h : ℕ) : ℤ)
      ((totalHours sch.segments : ℤ) - 1) =
      ((spanStart sch.segments i + h : ℕ) : ℤ) := min_eq_left (by omega)
  have htonat : ((spanStart sch.segments i + h : ℕ) : ℤ).toNat =
      spanStart sch.segments i + h := Int.toNat_natCast _
  refine ⟨RSState.mk (some ((spanStart sch.segments i + h : ℕ) : ℤ))
    (some (clamp ((sch.segments.get ⟨i, hi⟩).dist.start.getD 0 +
      (sch.segments.get ⟨i, hi⟩).dist.slope.getD 0 * (h : ℚ))
      ((sch.segments.get ⟨i, hi⟩).dist.bounds)))
    (some i) st.rng, ?_, rfl⟩
  simp only [value_at, if_neg h0, hmax, hminz, htonat, hlabel, hfind,
    hget, hkind, hfirst]
  simp only [or_true, ite_true, Option.getD_some]
  push_cast
  ring_nf

/-- C5 witness: a two-segment schedule whose second segment is
`linear(start 7, slope 2)`, queried 5 hours into that segment with dirty
prior state; the value is `7 + 2·5 = 17`. -/
def linSched : Schedule :=
  { segments :=
      [⟨"warmup", 1, { kind := "const", v := some 3 }, 0⟩,
       ⟨"ramp", 2, { kind := "linear", start := some 7, slope := some 2 }, 0⟩],
    series_map := fun _ => none }

/-- C5 witness instantiation. -/
theorem linear_segment_value_witness :
    ∃ st' : RSState,
      value_at linSched
          { lastTs := some 3, lastValue := some 99, lastSegIdx := some 0,
            rng := ⟨fun _ => 5, 7⟩ }
          ((spanStart linSched.segments 1 + 5 : ℕ) : ℤ) =
        some ((clamp ((linSched.segments.get ⟨1, by norm_num [linSched]⟩).dist.start.getD 0 +
              (linSched.segments.get ⟨1, by norm_num [linSched]⟩).dist.slope.getD 0 * (5 : ℚ))
            ((linSched.segments.get ⟨1, by norm_num [linSched]⟩).dist.bounds),
          (linSched.segments.get ⟨1, by norm_num [linSched]⟩).name), st') ∧
      st'.rng = (⟨fun _ => 5, 7⟩ : RNG) :=
  linear_segment_value linSched
    { lastTs := some 3, lastValue := some 99, lastSegIdx := some 0,
      rng := ⟨fun _ => 5, 7⟩ }
    1 5 (by norm_num [linSched]) (by simp +decide [linSched])
    (by simp +decide [linSched, strLower]) (by norm_num [linSched, segHours])

/-! ## C2 -/

/-- The clamped timestamp `min(max(ts, index[0]), index[-1])` of
`value_at`, as an hour offset in `ℤ`. -/
def clampedTs (sch : Schedule) (ts0 : ℤ) : ℤ :=
  min (max ts0 0) ((totalHours sch.segments : ℤ) - 1)

/-- The clamped timestamp as an hour index. -/
def activeHour (sch : Schedule) (ts0 : ℤ) : ℕ := (clampedTs sch ts0).toNat

/-- `seg_name` as computed by `value_at`. -/
def activeName (sch : Schedule) (ts0 : ℤ) : String :=
  labelAt sch.segments (activeHour sch ts0)

/-- `seg_idx` as computed by `value_at` (first segment carrying the active
label). -/
def activeIdx (sch : Schedule) (ts0 : ℤ) : ℕ :=
  sch.segments.findIdx (fun s => s.name = activeName sch ts0)

/-- `dist_next` as computed by `value_at`. -/
def nextDist (sch : Schedule) (ts0 : ℤ) : Option DistSpec :=
  match (blend sch.segments (activeHour sch ts0) (activeIdx sch ts0)).2.2 with
  | none => none
  | some j => (sch.segments.get? j).map (fun s => s.dist)

/-- `steps` as computed by `value_at` (`max(1, elapsed hours)` per call). -/
def stepsOf (st : RSState) (sch : Schedule) (ts0 : ℤ) : ℕ :=
  match st.lastTs with
  | none => 1
  | some l => (max 1 (clampedTs sch ts0 - l)).toNat

/-- `v = self._last_value` after the regime-change reset. -/
def effPrev (st : RSState) (idx : ℕ) : Option ℚ :=
  if st.lastSegIdx ≠ none ∧ st.lastSegIdx ≠ some idx then none else st.lastValue

/-- The blended parameter dict `p` used by `value_at`'s AR1/RW loop. -/
def loopParams (sch : Schedule) (ts0 : ℤ) (curr : Segment) : DistSpec :=
  match nextDist sch ts0 with
  | some dn =>
    if 0 < (blend sch.segments (activeHour sch ts0) (activeIdx sch ts0)).2.1 then
      blendParams curr.dist dn
        (blend sch.segments (activeHour sch ts0) (activeIdx sch ts0)).1
        (blend sch.segments (activeHour sch ts0) (activeIdx sch ts0)).2.1
    else curr.dist
  | none => curr.dist

/-- Unfolding lemma: `value_at` written in terms of the named
subexpressions above (the right-hand side is literally the body of
`value_at` with the active segment resolved). -/
theorem value_at_run (sch : Schedule) (st : RSState) (ts0 : ℤ) (curr : Segment)
    (h0 : ¬ totalHours sch.segments = 0)
    (hget : sch.segments.get? (activeIdx sch ts0) = some curr) :
    value_at sch st ts0 =
      (let outcome : Option (ℚ × RNG) :=
         if strLower curr.dist.kind = "empirical" then
           match empirical_at sch.series_map (clampedTs sch ts0) curr.dist with
           | none => none
           | some v => some (v, st.rng)
         else if strLower curr.dist.kind = "ar1" ∨ strLower curr.dist.kind = "rw" ∨
             strLower curr.dist.kind = "linear" then
           if strLower curr.dist.kind = "linear" then
             some (clamp (curr.dist.start.getD 0 + curr.dist.slope.getD 0 *
                 (((activeHour sch ts0 : ℤ) -
                   (((firstHourFrom 0 sch.segments (activeName sch ts0)).getD 0 : ℕ) : ℤ) : ℤ) : ℚ))
               curr.dist.bounds, st.rng)
           else
             match stepLoop (loopParams sch ts0 curr) (stepsOf st sch ts0)
                 (effPrev st (activeIdx sch ts0)) st.rng with
             | some (some v, r') => some (v, r')
             | _ => none
         else
           match nextDist sch ts0 with
           | some dn =>
             if 0 < (blend sch.segments (activeHour sch ts0) (activeIdx sch ts0)).2.1 then
               match iid_sample st.rng curr.dist with
               | none => none
               | some vr0 =>
                 match iid_sample vr0.2 dn with
                 | none => none
                 | some vr1 => some ((blend sch.segments (activeHour sch ts0)
                     (activeIdx sch ts0)).1 * vr0.1 +
                     (blend sch.segments (activeHour sch ts0) (activeIdx sch ts0)).2.1 * vr1.1,
                     vr1.2)
             else iid_sample st.rng curr.dist
           | none => iid_sample st.rng curr.dist
       match outcome with
       | none => none
       | some vr =>
         some ((vr.1, activeName sch ts0),
           RSState.mk (some (clampedTs sch ts0)) (some vr.1)
             (some (activeIdx sch ts0)) vr.2)) := by
  simp only [value_at, if_neg h0]
  rw [show sch.segments.get? (List.findIdx (fun s => s.name =
      labelAt sch.segments (min (max ts0 0)
        ((totalHours sch.segments : ℤ) - 1)).toNat) sch.segments) = some curr
    from hget]
  rfl

/-- C2 (amended): a repeated `value_at` query at the same already-visited
timestamp returns the same value when the active segment's kind is
`linear`, `const` (with no transition blending active), or `empirical`;
for `ar1`/`rw` a repeated query at the same timestamp advances the process
by exactly **one additional** authoritative step (the code steps
`max(1, elapsed hours) = 1` times on every call, so repeated queries do
advance the state again — contrary to the claim's single step per distinct
timestamp). -/
theorem value_at_repeat_spec (sch : Schedule) (st : RSState) (ts0 : ℤ)
    (curr : Segment) (v1 : ℚ) (n1 : String) (st1 : RSState)
    (h0 : ¬ totalHours sch.segments = 0)
    (hget : sch.segments.get? (activeIdx sch ts0) = some curr)
    (h1 : value_at sch st ts0 = some ((v1, n1), st1)) :
    (strLower curr.dist.kind = "linear" →
      (value_at sch st1 ts0).map (fun x => x.1) = some (v1, n1)) ∧
    (strLower curr.dist.kind = "const" → nextDist sch ts0 = none →
      (value_at sch st1 ts0).map (fun x => x.1) = some (v1, n1)) ∧
    (strLower curr.dist.kind = "empirical" →
      (value_at sch st1 ts0).map (fun x => x.1) = some (v1, n1)) ∧
    ((strLower curr.dist.kind = "ar1" ∨ strLower curr.dist.kind = "rw") →
      value_at sch st1 ts0 =
        match stateful_step st1.rng (some v1) (loopParams sch ts0 curr) with
        | none => none
        | some vr => some ((vr.1, n1),
            RSState.mk (some (clampedTs sch ts0)) (some vr.1)
              (some (activeIdx sch ts0)) vr.2)) := by
  rw [value_at_run sch st ts0 curr h0 hget] at h1
  refine ⟨?_, ?_, ?_, ?_⟩
  · intro hk
    rw [hk] at h1
    rw [value_at_run sch st1 ts0 curr h0 hget, hk]
    rw [if_neg (by decide : ¬ ("linear" : String) = "empirical"),
      if_pos (by decide : ("linear" : String) = "ar1" ∨ ("linear" : String) = "rw" ∨
        ("linear" : String) = "linear"),
      if_pos (rfl : ("linear" : String) = "linear")] at h1 ⊢
    simp only [Option.map_some', Option.some.injEq, Prod.mk.injEq] at h1 ⊢
    exact ⟨h1.1.1, h1.1.2⟩
  · intro hk hnd
    have hiid : ∀ r : RNG, iid_sample r curr.dist =
        (match curr.dist.v with
         | none => none
         | some vv => some (clamp vv curr.dist.bounds, r)) := by
      intro r
      simp +decide [iid_sample, hk]
    rw [hk] at h1
    rw [value_at_run sch st1 ts0 curr h0 hget, hk]
    rw [if_neg (by decide : ¬ ("const" : String) = "empirical"),
      if_neg (by decide : ¬ (("const" : String) = "ar1" ∨ ("const" : String) = "rw" ∨
        ("const" : String) = "linear"))] at h1 ⊢
    rw [hnd] at h1 ⊢
    rw [hiid] at h1 ⊢
    rcases hv : curr.dist.v with _ | vv
    · rw [hv] at h1
      simp at h1
    · rw [hv] at h1
      simp only [Option.map_some', Option.some.injEq, Prod.mk.injEq] at h1 ⊢
      exact ⟨h1.1.1, h1.1.2⟩
  · intro hk
    rw [hk] at h1
    rw [value_at_run sch st1 ts0 curr h0 hget, hk]
    rw [if_pos (rfl : ("empirical" : String) = "empirical")] at h1 ⊢
    rcases he : empirical_at sch.series_map (clampedTs sch ts0) curr.dist
        with _ | v
    · rw [he] at h1
      simp at h1
    · rw [he] at h1
      simp only [Option.map_some', Option.some.injEq, Prod.mk.injEq] at h1 ⊢
      exact ⟨h1.1.1, h1.1.2⟩
  · intro hk
    have hne : ¬ strLower curr.dist.kind = "empirical" := by
      rcases hk with hk | hk <;> rw [hk] <;> decide
    have hor : strLower curr.dist.kind = "ar1" ∨ strLower curr.dist.kind = "rw" ∨
        strLower curr.dist.kind = "linear" := by
      rcases hk with hk | hk
      · exact Or.inl hk
      · exact Or.inr (Or.inl hk)
    have hnl : ¬ strLower curr.dist.kind = "linear" := by
      rcases hk with hk | hk <;> rw [hk] <;> decide
    rw [if_neg hne, if_pos hor, if_neg hnl] at h1
    rw [value_at_run sch st1 ts0 curr h0 hget, if_neg hne, if_pos hor, if_neg hnl]
    rcases hout : stepLoop (loopParams sch ts0 curr) (stepsOf st sch ts0)
        (effPrev st (activeIdx sch ts0)) st.rng with _ | vr <;> rw [hout] at h1
    · simp at h1
    · rcases vr with ⟨ov, r⟩
      rcases ov with _ | v
      · simp at h1
      · simp only [Option.some.injEq, Prod.mk.injEq] at h1
        obtain ⟨⟨hv, hn⟩, hst⟩ := h1
        have hsteps : stepsOf st1 sch ts0 = 1 := by
          rw [← hst]
          simp [stepsOf]
        have hprev : effPrev st1 (activeIdx sch ts0) = some v := by
          rw [← hst]
          simp [effPrev]
        have hrng : st1.rng = r := by
          rw [← hst]
        rw [hsteps, hprev, hrng, hv]
        have hsl : ∀ x : Option ℚ, stepLoop (loopParams sch ts0 curr) 1 x r =
            (match stateful_step r x (loopParams sch ts0 curr) with
             | none => none
             | some vr2 => some (some vr2.1, vr2.2)) := by
          intro x
          rcases hx : stateful_step r x (loopParams sch ts0 curr) with _ | vr2
          · simp [stepLoop, hx]
          · simp [stepLoop, hx]
        rw [hsl]
        rcases hss : stateful_step r (some v1) (loopParams sch ts0 curr) with _ | vr2
        · simp
        · simp [hn]

/-- The segment of the C2 counterexample and witness: a one-day `rw`
regime with `drift = 1`, `sigma = 0`, `start = 0` (stepping is fully
deterministic). -/
def rwSeg : Segment :=
  ⟨"a", 1, { kind := "rw", drift := some 1, sigma := some 0, start := some 0 }, 0⟩

/-- One-segment schedule over the rw regime. -/
def rwSched : Schedule := { segments := [rwSeg], series_map := fun _ => none }

/-- The state after the first query at hour 0 (value 1, one draw used). -/
def rwSt1 : RSState := RSState.mk (some 0) (some 1) (some 0) ⟨fun _ => 0, 1⟩

/-- C2 counterexample: two `value_at` queries at the same timestamp 0 on
the deterministic rw schedule. The first returns 1; the repeated query at
the already-visited timestamp returns 2 — the process state advanced one
more authoritative step (`steps = max(1, 0) = 1` per call), refuting the
claim that a repeated query at the same timestamp does not advance the
process again. -/
theorem value_at_repeat_counterexample :
    value_at rwSched (RSState.mk none none none ⟨fun _ => 0, 0⟩) 0 =
      some ((1, "a"), rwSt1) ∧
    (value_at rwSched rwSt1 0).map (fun x => x.1.1) = some 2 ∧
    (1 : ℚ) ≠ 2 := by
  refine ⟨?_, ?_, by norm_num⟩
  · norm_num +decide [value_at, totalHours, segHours, labelAt, containingSeg,
      blend, lastHourFrom, stepLoop, stateful_step, clamp, RNG.normalDraw,
      RNG.next, rwSched, rwSeg, rwSt1]
  · norm_num +decide [value_at, totalHours, segHours, labelAt, containingSeg,
      blend, lastHourFrom, stepLoop, stateful_step, clamp, RNG.normalDraw,
      RNG.next, rwSched, rwSeg, rwSt1]

/-- C2 witness: the amended theorem instantiated on the concrete rw
schedule and the state left by its first query. -/
theorem value_at_repeat_spec_witness :
    (strLower rwSeg.dist.kind = "linear" →
      (value_at rwSched rwSt1 0).map (fun x => x.1) = some (1, "a")) ∧
    (strLower rwSeg.dist.kind = "const" → nextDist rwSched 0 = none →
      (value_at rwSched rwSt1 0).map (fun x => x.1) = some (1, "a")) ∧
    (strLower rwSeg.dist.kind = "empirical" →
      (value_at rwSched rwSt1 0).map (fun x => x.1) = some (1, "a")) ∧
    ((strLower rwSeg.dist.kind = "ar1" ∨ strLower rwSeg.dist.kind = "rw") →
      value_at rwSched rwSt1 0 =
        match stateful_step rwSt1.rng (some 1) (loopParams rwSched 0 rwSeg) with
        | none => none
        | some vr => some ((vr.1, "a"),
            RSState.mk (some (clampedTs rwSched 0)) (some vr.1)
              (some (activeIdx rwSched 0)) vr.2)) :=
  value_at_repeat_spec rwSched (RSState.mk none none none ⟨fun _ => 0, 0⟩) 0
    rwSeg 1 "a" rwSt1 (by decide) (by decide)
    (by norm_num +decide [value_at, totalHours, segHours, labelAt, containingSeg,
      blend, lastHourFrom, stepLoop, stateful_step, clamp, RNG.normalDraw,
      RNG.next, rwSched, rwSeg, rwSt1])

/-- **C9.** Two-run determinism: re-running the pipeline with the same
integer seed, the same static configuration, the same root finder and trig
oracles, and the same generator-derivation maps yields identical outputs;
row by row, the cleared price, cleared quantity, per-technology breakdown,
driver values and regime labels coincide. -/
theorem two_run_determinism (P : SimConfig) (rf : RootFinder)
    (cosPi sinPi : ℚ → ℚ) (derive deriveW : ℕ → RNG) (s1 s2 : ℕ)
    (rows1 rows2 : List Row) (hs : s1 = s2)
    (h1 : runSim P rf cosPi sinPi derive deriveW s1 = some rows1)
    (h2 : runSim P rf cosPi sinPi derive deriveW s2 = some rows2) :
    rows1 = rows2 ∧
    ∀ i : ℕ, ∀ hi : i < rows1.length, ∀ hi2 : i < rows2.length,
      (rows1.get ⟨i, hi⟩).price = (rows2.get ⟨i, hi2⟩).price ∧
      (rows1.get ⟨i, hi⟩).q_cleared = (rows2.get ⟨i, hi2⟩).q_cleared ∧
      (rows1.get ⟨i, hi⟩).br = (rows2.get ⟨i, hi2⟩).br ∧
      (rows1.get ⟨i, hi⟩).vals = (rows2.get ⟨i, hi2⟩).vals ∧
      (rows1.get ⟨i, hi⟩).labs = (rows2.get ⟨i, hi2⟩).labs := by
  subst hs
  rw [h1] at h2
  obtain rfl : rows1 = rows2 := Option.some.inj h2
  exact ⟨rfl, fun i hi hi2 => ⟨rfl, rfl, rfl, rfl, rfl⟩⟩

/-- Empty-horizon configuration for the C9 witness. -/
def simCfg0 : SimConfig :=
  { demand_cfg := cfgInelastic, schedules := [], price_grid := [0, 100],
    hours := 0, cal := fun _ => tsNoon, outages := none,
    weatherMode := false, windParams := {} }

/-- A root finder that always fails (never reached on the witness path). -/
def rfNone : RootFinder := fun _ _ _ => none

/-- C9 witness: the determinism theorem applied at a concrete configuration
with seed 7 for both runs, the run results evaluated by `rfl`. -/
theorem two_run_determinism_witness :
    ([] : List Row) = [] ∧
    ∀ i : ℕ, ∀ hi : i < ([] : List Row).length,
      ∀ hi2 : i < ([] : List Row).length,
      (([] : List Row).get ⟨i, hi⟩).price = (([] : List Row).get ⟨i, hi2⟩).price ∧
      (([] : List Row).get ⟨i, hi⟩).q_cleared = (([] : List Row).get ⟨i, hi2⟩).q_cleared ∧
      (([] : List Row).get ⟨i, hi⟩).br = (([] : List Row).get ⟨i, hi2⟩).br ∧
      (([] : List Row).get ⟨i, hi⟩).vals = (([] : List Row).get ⟨i, hi2⟩).vals ∧
      (([] : List Row).get ⟨i, hi⟩).labs = (([] : List Row).get ⟨i, hi2⟩).labs :=
  two_run_determinism simCfg0 rfNone (fun _ => 0) (fun _ => 0)
    (fun _ => ⟨fun _ => 0, 0⟩) (fun _ => ⟨fun _ => 0, 0⟩) 7 7 [] [] rfl rfl rfl

end SDG
